import Mathlib

/-!
# webcrawler: keyword matcher, link deduplication and the crawl loop

A shallow embedding of `crawler.go`.  Go strings are byte sequences
(`len` counts bytes, `s[a:b]` slices bytes), so a string is a list of
byte values.  The Go standard library (`strings`, `unicode/utf8`,
`net/url`, `net/http`) and `goquery` are not part of the repository:
the string functions are modelled from their documented behaviour, the
network, the HTML parser, the URL parser, the rune case table and the
iteration order of Go maps are parameters of the embedding.
-/

namespace Crawler

/-! ## Go strings -/

/-- A Go string: its bytes. -/
abbrev GoString := List Nat

/-- The constant `utf8.RuneError`, U+FFFD. -/
def RuneError : Nat := 0xFFFD

/-- A continuation byte `10xxxxxx`. -/
def isCont (b : Nat) : Bool := 0x80 ≤ b && b ≤ 0xBF

/-- Go `utf8.DecodeRune`: the first rune of `s` and its width in bytes.
An encoding that is not valid UTF-8 (overlong, surrogate, out of range,
truncated) yields `(RuneError, 1)`; the empty string yields `(RuneError, 0)`. -/
def DecodeRune : GoString → Nat × Nat
  | [] => (RuneError, 0)
  | b0 :: rest =>
    if b0 < 0x80 then (b0, 1)
    else if 0xC2 ≤ b0 && b0 ≤ 0xDF then
      match rest with
      | b1 :: _ =>
        if isCont b1 then ((b0 % 0x20) * 0x40 + b1 % 0x40, 2) else (RuneError, 1)
      | _ => (RuneError, 1)
    else if 0xE0 ≤ b0 && b0 ≤ 0xEF then
      match rest with
      | b1 :: b2 :: _ =>
        let lo := if b0 = 0xE0 then 0xA0 else 0x80
        let hi := if b0 = 0xED then 0x9F else 0xBF
        if lo ≤ b1 && b1 ≤ hi && isCont b2 then
          ((b0 % 0x10) * 0x1000 + (b1 % 0x40) * 0x40 + b2 % 0x40, 3)
        else (RuneError, 1)
      | _ => (RuneError, 1)
    else if 0xF0 ≤ b0 && b0 ≤ 0xF4 then
      match rest with
      | b1 :: b2 :: b3 :: _ =>
        let lo := if b0 = 0xF0 then 0x90 else 0x80
        let hi := if b0 = 0xF4 then 0x8F else 0xBF
        if lo ≤ b1 && b1 ≤ hi && isCont b2 && isCont b3 then
          ((b0 % 0x08) * 0x40000 + (b1 % 0x40) * 0x1000 + (b2 % 0x40) * 0x40 + b3 % 0x40, 4)
        else (RuneError, 1)
      | _ => (RuneError, 1)
    else (RuneError, 1)

/-- Go `utf8.AppendRune`: the UTF-8 encoding of a rune; a surrogate or a
value above U+10FFFF is encoded as `RuneError`. -/
def EncodeRune (r : Nat) : GoString :=
  if r < 0x80 then [r]
  else if r < 0x800 then [0xC0 + r / 0x40, 0x80 + r % 0x40]
  else if (0xD800 ≤ r && r ≤ 0xDFFF) || 0x10FFFF < r then [0xEF, 0xBF, 0xBD]
  else if r < 0x10000 then [0xE0 + r / 0x1000, 0x80 + (r / 0x40) % 0x40, 0x80 + r % 0x40]
  else [0xF0 + r / 0x40000, 0x80 + (r / 0x1000) % 0x40, 0x80 + (r / 0x40) % 0x40, 0x80 + r % 0x40]

/-- The bytes of a string literal (its UTF-8 encoding), to write inputs legibly. -/
def utf8 (s : String) : GoString := s.data.flatMap (fun c => EncodeRune c.toNat)

/-- Go `strings.Map` for a mapping that never drops a rune: the string is
decoded rune by rune (`skip` counts the bytes of the current rune still to
be passed over) and every rune is replaced by the encoding of its image.
An invalid byte decodes to `RuneError` and is written back as the three
bytes of U+FFFD.  (Go copies an unchanged valid prefix verbatim, which is
the same bytes as re-encoding it.) -/
def Map (mapping : Nat → Nat) : GoString → Nat → GoString
  | [], _ => []
  | _ :: rest, skip + 1 => Map mapping rest skip
  | b :: rest, 0 =>
    let d := DecodeRune (b :: rest)
    EncodeRune (mapping d.1) ++ Map mapping rest (d.2 - 1)

/-- The ASCII branch of `strings.ToLower`: `c += 'a' - 'A'` for `'A' ≤ c ≤ 'Z'`. -/
def lowerByte (c : Nat) : Nat := if 0x41 ≤ c && c ≤ 0x5A then c + 0x20 else c

/-- Go `strings.ToLower`, with the rune table `unicode.ToLower` as the
parameter `lowerRune`.  A string of ASCII bytes only takes the fast path
(byte-wise, the table is not consulted); any other string goes through
`strings.Map(unicode.ToLower, s)`. -/
def ToLower (lowerRune : Nat → Nat) (s : GoString) : GoString :=
  if s.all (fun c => c < 0x80) then s.map lowerByte
  else Map lowerRune s 0

/-- The case ranges of Go's `unicode.ToLower` that the inputs evaluated in
this file use: ASCII, Latin-1, U+0130 (`İ` to `i`), U+023A (`Ⱥ` to U+2C65)
and U+212A (Kelvin sign to `k`).  The general theorems do not use this
table: they hold for every `lowerRune`. -/
def unicodeToLower (r : Nat) : Nat :=
  if 0x41 ≤ r && r ≤ 0x5A then r + 0x20
  else if 0xC0 ≤ r && r ≤ 0xDE && r ≠ 0xD7 then r + 0x20
  else if r = 0x130 then 0x69
  else if r = 0x23A then 0x2C65
  else if r = 0x212A then 0x6B
  else r

/-- The first index at which `substr` starts in `s`, if any. -/
def indexOf? (substr : GoString) : GoString → Option Nat
  | [] => if substr = [] then some 0 else none
  | b :: rest =>
    if substr.isPrefixOf (b :: rest) then some 0
    else (indexOf? substr rest).map (· + 1)

/-- Go `strings.Index`: the index of the first instance of `substr` in
`s`, or `-1` if `substr` is not present in `s`. -/
def Index (s substr : GoString) : Int :=
  match indexOf? substr s with
  | some i => (i : Int)
  | none => -1

/-- The Go slice expression `s[lo:hi]` on a string: it panics (`none`)
unless `0 ≤ lo ≤ hi ≤ len(s)`. -/
def slice (s : GoString) (lo hi : Int) : Option GoString :=
  if 0 ≤ lo ∧ lo ≤ hi ∧ hi ≤ (s.length : Int) then
    some ((s.drop lo.toNat).take (hi.toNat - lo.toNat))
  else none

/-- Go `strings.ReplaceAll(s, "\n", "")`: every newline byte is removed. -/
def removeNewlines (s : GoString) : GoString := s.filter (fun c => c != 0x0A)

/-- Go `strings.Trim(s, " ")`: leading and trailing spaces are removed. -/
def Trim (s : GoString) : GoString :=
  ((s.dropWhile (fun c => c == 0x20)).reverse.dropWhile (fun c => c == 0x20)).reverse

/-! ## The document and the keyword matcher -/

/-- What `crawler.go` reads from a parsed `goquery.Document`: the text
content `doc.Text()` once the `script` and `style` elements are removed,
and the `href` attribute of every `a` element in document order (`none`
when the attribute does not exist). -/
structure Document where
  Text : GoString
  hrefs : List (Option GoString)
deriving DecidableEq, Repr

/-- `checkKeywordMatch` (crawler.go, lines 15-47).  The result is `none`
when the slice expression on line 42 panics. -/
def checkKeywordMatch (lowerRune : Nat → Nat) (doc : Document) (keyword : GoString) :
    Option (Bool × GoString) :=
  let contentText := doc.Text
  if contentText.length = 0 then some (false, [])
  else
    let startIndex : Int := Index (ToLower lowerRune contentText) (ToLower lowerRune keyword)
    let contextSize : Int := 6
    let contextStartIndex : Int := startIndex - contextSize
    let contextEndIndex : Int := startIndex + (keyword.length : Int) + contextSize
    let contextStartIndex : Int := if contextStartIndex < 0 then 0 else contextStartIndex
    let contextEndIndex : Int :=
      if contextEndIndex ≥ (contentText.length : Int) then (contentText.length : Int) - 1
      else contextEndIndex
    match slice contentText contextStartIndex contextEndIndex with
    | none => none
    | some context => some (decide (startIndex ≥ 0), Trim (removeNewlines context))


/-! ## Go maps -/

/-- A Go map with string keys: its entries in insertion order, the keys
pairwise distinct. -/
structure GoMap (β : Type) where
  entries : List (GoString × β)
deriving DecidableEq, Repr

namespace GoMap

/-- The empty map, `make(map[string]T)`. -/
def empty {β : Type} : GoMap β := ⟨[]⟩

/-- The comma-ok test `_, ok := m[key]`. -/
def has {β : Type} (m : GoMap β) (key : GoString) : Bool := m.entries.any (fun e => e.1 == key)

/-- The entries after the assignment `m[key] = val`. -/
def setEntries {β : Type} (key : GoString) (val : β) : List (GoString × β) → List (GoString × β)
  | [] => [(key, val)]
  | e :: rest => if e.1 = key then (key, val) :: rest else e :: setEntries key val rest

/-- The assignment `m[key] = val`: the value of an existing key is
replaced, a new key is added. -/
def set {β : Type} (m : GoMap β) (key : GoString) (val : β) : GoMap β :=
  ⟨setEntries key val m.entries⟩

/-- The keys of the map. -/
def keys {β : Type} (m : GoMap β) : List GoString := m.entries.map Prod.fst

/-- Go `len(m)`. -/
def len {β : Type} (m : GoMap β) : Nat := m.entries.length

end GoMap

/-- The order in which `for ... range` visits the entries of a Go map.
The language leaves it unspecified: any permutation of the entries. -/
structure RangeOrder (β : Type) where
  order : GoMap β → List (GoString × β)
  perm : ∀ m, (order m).Perm m.entries

/-- `dedupeList` (crawler.go, lines 49-60). -/
def dedupeList (ρ : RangeOrder Bool) (input : List GoString) : List GoString :=
  let tmpMap : GoMap Bool := input.foldl (fun m val => m.set val true) GoMap.empty
  (ρ.order tmpMap).foldl (fun output e => output ++ [e.1]) []

/-! ## Fetching one page -/

/-- How a call ends: it returns normally, it returns a non-nil `error`,
or it panics. -/
inductive Outcome (Error α : Type) where
  | ok (a : α)
  | err (e : Error)
  | panic
deriving DecidableEq, Repr

/-- The world outside the repository.  `World` is the state of the network
and of the Go runtime, `Body` a response body, `URL` a parsed `*url.URL`. -/
structure Env (World Body URL Error : Type) where
  /-- Go `http.Get`: a response (status code, body) or an error; the world after the request -/
  Get : World → GoString → Except Error (Nat × Body) × World
  /-- Go `goquery.NewDocumentFromReader` on the response body -/
  NewDocumentFromReader : Body → Except Error Document
  /-- Go `url.Parse` -/
  Parse : GoString → Except Error URL
  /-- Go `(*url.URL).Hostname` -/
  Hostname : URL → GoString
  /-- Go `(*url.URL).ResolveReference` -/
  ResolveReference : URL → URL → URL
  /-- Go `(*url.URL).String` -/
  URLString : URL → GoString
  /-- Go `unicode.ToLower` -/
  lowerRune : Nat → Nat
  /-- The iteration order of the map in `dedupeList` -/
  rangeKeys : World → RangeOrder Bool

/-- The body of the closure passed to `doc.Find("a").Each` (crawler.go,
lines 92-113), for one `a` element: `foundURLs` after the element. -/
def collectHref {World Body URL Error : Type} (env : Env World Body URL Error) (rootURL : URL)
    (foundURLs : List GoString) (href : Option GoString) : List GoString :=
  match href with
  | none => foundURLs
  | some tagURL =>
    match tagURL with
    | [] => foundURLs
    | c :: _ =>
      if c = 0x23 then foundURLs
      else if c = 0x2F then
        match env.Parse tagURL with
        | .error _ => foundURLs
        | .ok relativeURL =>
          foundURLs ++ [env.URLString (env.ResolveReference rootURL relativeURL)]
      else foundURLs ++ [tagURL]

/-- `crawlPage` (crawler.go, lines 63-116): the found URLs, the keyword
match and its context, or the error returned; and the world after the
request.  The warning printed for a status code other than 200 is not
modelled. -/
def crawlPage {World Body URL Error : Type} (env : Env World Body URL Error) (w : World)
    (sourceURL keyword : GoString) :
    Outcome Error (List GoString × Bool × GoString) × World :=
  match env.Get w sourceURL with
  | (.error err, w1) => (.err err, w1)
  | (.ok resp, w1) =>
    match env.NewDocumentFromReader resp.2 with
    | .error err => (.err err, w1)
    | .ok doc =>
      match checkKeywordMatch env.lowerRune doc keyword with
      | none => (.panic, w1)
      | some (isKeywordMatch, matchContext) =>
        match env.Parse sourceURL with
        | .error err => (.err err, w1)
        | .ok rootURL =>
          let foundURLs := doc.hrefs.foldl (collectHref env rootURL) []
          (.ok (dedupeList (env.rangeKeys w1) foundURLs, isKeywordMatch, matchContext), w1)

/-! ## The crawl -/

/-- `PageResult` (crawler.go, lines 123-127). -/
structure PageResult where
  URL : GoString
  IsKeywordMatch : Bool
  MatchContext : GoString
deriving DecidableEq, Repr

/-- The loop over `foundURLs` (crawler.go, lines 156-174): `newURLs` after it. -/
def queueFoundURLs {World Body URL Error : Type} (env : Env World Body URL Error)
    (results : GoMap PageResult) (crawlURL : GoString) :
    List GoString → List GoString → List GoString
  | [], newURLs => newURLs
  | foundURL :: rest, newURLs =>
    if results.has foundURL then queueFoundURLs env results crawlURL rest newURLs
    else
      match env.Parse crawlURL with
      | .error _ => queueFoundURLs env results crawlURL rest newURLs
      | .ok currentURLInfo =>
        match env.Parse foundURL with
        | .error _ => queueFoundURLs env results crawlURL rest newURLs
        | .ok foundURLInfo =>
          if env.Hostname foundURLInfo = env.Hostname currentURLInfo then
            queueFoundURLs env results crawlURL rest (newURLs ++ [foundURL])
          else queueFoundURLs env results crawlURL rest newURLs

/-- The loop over `crawlURLs` (crawler.go, lines 142-175), one depth level:
the visited map and `newURLs` after it. -/
def crawlLevel {World Body URL Error : Type} (env : Env World Body URL Error)
    (keyword : GoString) :
    List GoString → GoMap PageResult → List GoString → World →
      Outcome Error (GoMap PageResult × List GoString) × World
  | [], results, newURLs, w => (.ok (results, newURLs), w)
  | crawlURL :: rest, results, newURLs, w =>
    match crawlPage env w crawlURL keyword with
    | (.err e, w1) => (.err e, w1)
    | (.panic, w1) => (.panic, w1)
    | (.ok (foundURLs, isKeywordMatch, matchContext), w1) =>
      let results := results.set crawlURL
        { URL := crawlURL, IsKeywordMatch := isKeywordMatch, MatchContext := matchContext }
      let newURLs := queueFoundURLs env results crawlURL foundURLs newURLs
      crawlLevel env keyword rest results newURLs w1

/-- The loop `for i := 0; i < depth; i++` (crawler.go, lines 140-179) with
`n` iterations left: the visited map and `crawlURLs` after it. -/
def crawlLoop {World Body URL Error : Type} (env : Env World Body URL Error)
    (keyword : GoString) :
    Nat → GoMap PageResult → List GoString → World →
      Outcome Error (GoMap PageResult × List GoString) × World
  | 0, results, crawlURLs, w => (.ok (results, crawlURLs), w)
  | n + 1, results, crawlURLs, w =>
    match crawlLevel env keyword crawlURLs results [] w with
    | (.err e, w1) => (.err e, w1)
    | (.panic, w1) => (.panic, w1)
    | (.ok (results, newURLs), w1) => crawlLoop env keyword n results newURLs w1

/-- `PerformKeywordCrawl` (crawler.go, lines 134-190): the returned triple
`(TotalCrawled, Matches, err)`, or `none` when the run panics; and the
world after the run.  `ρ` is the iteration order of the final loop over
`results`. -/
def PerformKeywordCrawl {World Body URL Error : Type} (env : Env World Body URL Error)
    (ρ : RangeOrder PageResult) (w : World) (startURL keyword : GoString) (depth : Int) :
    Option (Nat × List PageResult × Option Error) × World :=
  match crawlLoop env keyword depth.toNat GoMap.empty [startURL] w with
  | (.err err, w1) => (some (0, [], some err), w1)
  | (.panic, w1) => (none, w1)
  | (.ok (results, _), w1) =>
    let matchList := (ρ.order results).foldl
      (fun matchList e => if e.2.IsKeywordMatch then matchList ++ [e.2] else matchList) []
    (some (results.len, matchList, none), w1)

/-! ## A small web, to run the crawl on -/

/-- A parsed URL of the small web: scheme, host (with port) and path. -/
structure DemoURL where
  Scheme : GoString
  Host : GoString
  Path : GoString
deriving DecidableEq, Repr

/-- The fragment of `url.Parse` used on the small web: `scheme://host/path`
or a rooted path. -/
def demoParse (s : GoString) : Except Unit DemoURL :=
  match indexOf? (utf8 "://") s with
  | none => .ok ⟨[], [], s⟩
  | some i =>
    let rest := s.drop (i + 3)
    .ok ⟨s.take i, rest.takeWhile (fun c => c != 0x2F), rest.dropWhile (fun c => c != 0x2F)⟩

/-- Insertion order, one of the orders a `range` may take. -/
def insertionOrder (β : Type) : RangeOrder β := ⟨fun m => m.entries, fun _ => List.Perm.refl _⟩

/-- The home page of the small web. -/
def homeURL : GoString := utf8 "http://a/"

/-- The page `/p` of the small web. -/
def pURL : GoString := utf8 "http://a/p"

/-- The page `/q` of the small web. -/
def qURL : GoString := utf8 "http://a/q"

/-- The page `/r` of the small web. -/
def rURL : GoString := utf8 "http://a/r"

/-- The page `/s` of the small web. -/
def sURL : GoString := utf8 "http://a/s"

/-- The pages of the small web, all on host `a`: the home page links to
`/p` and `/q`, both of which link to `/r`; `/p` also links to `/q`.  The
page `/r` holds the word `key` the first time it is requested only.  The
page `/s`, to which no page links, holds the text `ȺȺȺȺȺȺȺx`.  The world is
the list of the URLs requested so far. -/
def demoPage (w : List GoString) (u : GoString) : Document :=
  if u = homeURL then ⟨utf8 "home", [some (utf8 "/p"), some (utf8 "/q")]⟩
  else if u = pURL then ⟨utf8 "page p", [some (utf8 "/r"), some (utf8 "/q")]⟩
  else if u = qURL then ⟨utf8 "page q", [some (utf8 "/r")]⟩
  else if u = rURL then
    (if u ∈ w then ⟨utf8 "gone", []⟩ else ⟨utf8 "the key is here", []⟩)
  else if u = sURL then ⟨utf8 "ȺȺȺȺȺȺȺx", []⟩
  else ⟨[], []⟩

/-- The small web as an environment: every request is logged; a request
for a URL listed in `down` fails, every other request succeeds. -/
def demoEnv (down : List GoString) : Env (List GoString) Document DemoURL Unit where
  Get := fun w u => if u ∈ down then (.error (), w ++ [u]) else (.ok (200, demoPage w u), w ++ [u])
  NewDocumentFromReader := fun body => .ok body
  Parse := demoParse
  Hostname := fun u => u.Host.takeWhile (fun c => c != 0x3A)
  ResolveReference := fun root rel => if rel.Host = [] then ⟨root.Scheme, root.Host, rel.Path⟩ else rel
  URLString := fun u => u.Scheme ++ utf8 "://" ++ u.Host ++ u.Path
  lowerRune := unicodeToLower
  rangeKeys := fun _ => insertionOrder Bool

/-- The visited map of the small web after the home page. -/
def demoResults1 : GoMap PageResult := ⟨[(homeURL, ⟨homeURL, false, utf8 "hom"⟩)]⟩

/-- The visited map of the small web after the home page and `/p`. -/
def demoResultsP : GoMap PageResult :=
  ⟨[(homeURL, ⟨homeURL, false, utf8 "hom"⟩), (pURL, ⟨pURL, false, utf8 "page"⟩)]⟩

/-- The visited map of the small web after two levels. -/
def demoResults2 : GoMap PageResult :=
  ⟨[(homeURL, ⟨homeURL, false, utf8 "hom"⟩), (pURL, ⟨pURL, false, utf8 "page"⟩),
    (qURL, ⟨qURL, false, utf8 "page"⟩)]⟩

/-! ## Facts about the string functions -/

theorem indexOf?_eq_none_iff (substr s : GoString) :
    indexOf? substr s = none ↔ ¬ substr <:+: s := by
  induction s with
  | nil =>
    unfold indexOf?
    by_cases h : substr = []
    · simp [h]
    · simp [h, List.infix_nil]
  | cons b rest ih =>
    unfold indexOf?
    by_cases hp : substr.isPrefixOf (b :: rest) = true
    · simp only [hp, if_true]
      have : substr <+: b :: rest := List.isPrefixOf_iff_prefix.mp hp
      simp [this.isInfix]
    · have hnp : ¬ substr <+: b :: rest := fun h => hp (List.isPrefixOf_iff_prefix.mpr h)
      simp only [hp, Option.map_eq_none', List.infix_cons_iff, hnp, false_or]
      simpa using ih

theorem indexOf?_some_take (substr s : GoString) (i : Nat) (h : indexOf? substr s = some i) :
    i + substr.length ≤ s.length ∧ (s.drop i).take substr.length = substr := by
  induction s generalizing i with
  | nil =>
    unfold indexOf? at h
    by_cases hs : substr = []
    · simp [hs] at h
      subst h; simp [hs]
    · simp [hs] at h
  | cons b rest ih =>
    unfold indexOf? at h
    by_cases hp : substr.isPrefixOf (b :: rest) = true
    · simp only [hp, if_true, Option.some.injEq] at h
      subst h
      have hpre : substr <+: b :: rest := List.isPrefixOf_iff_prefix.mp hp
      refine ⟨by simpa using hpre.length_le, ?_⟩
      simpa using (List.prefix_iff_eq_take.mp hpre).symm
    · cases hj : indexOf? substr rest with
      | none => simp [hp, hj] at h
      | some j =>
        simp [hp, hj] at h
        subst h
        obtain ⟨h1, h2⟩ := ih j hj
        refine ⟨by simp; omega, ?_⟩
        simpa using h2

theorem Index_absent (s substr : GoString) (h : ¬ substr <:+: s) :
    Index s substr = -1 := by
  unfold Index
  rw [(indexOf?_eq_none_iff substr s).mpr h]

theorem Index_present (s substr : GoString) (h : substr <:+: s) :
    ∃ i : Nat, indexOf? substr s = some i ∧ Index s substr = (i : Int) := by
  cases hi : indexOf? substr s with
  | none => exact absurd h ((indexOf?_eq_none_iff substr s).mp hi)
  | some i => exact ⟨i, rfl, by simp [Index, hi]⟩

theorem ToLower_ascii (lowerRune : Nat → Nat) (s : GoString) (h : ∀ b ∈ s, b < 0x80) :
    ToLower lowerRune s = s.map lowerByte := by
  unfold ToLower
  have : s.all (fun c => decide (c < 0x80)) = true := by
    simpa [List.all_eq_true] using h
  simp [this]

theorem slice_nat (s : GoString) (lo hi : Nat) (h1 : lo ≤ hi) (h2 : hi ≤ s.length) :
    slice s (lo : Int) (hi : Int) = some ((s.drop lo).take (hi - lo)) := by
  unfold slice
  have : (0 : Int) ≤ (lo : Int) ∧ (lo : Int) ≤ (hi : Int) ∧ (hi : Int) ≤ (s.length : Int) := by
    omega
  simp [this]

theorem checkKeywordMatch_found (lowerRune : Nat → Nat) (doc : Document) (keyword : GoString)
    (i : Nat) (hT : doc.Text.length ≠ 0)
    (hi : Index (ToLower lowerRune doc.Text) (ToLower lowerRune keyword) = (i : Int)) :
    checkKeywordMatch lowerRune doc keyword =
      (slice doc.Text ((i - 6 : Nat) : Int)
        ((if i + keyword.length + 6 ≥ doc.Text.length then doc.Text.length - 1
          else i + keyword.length + 6 : Nat) : Int)).map
        (fun context => (true, Trim (removeNewlines context))) := by
  unfold checkKeywordMatch
  simp only [hT, if_false, hi]
  have e1 : (if (i : Int) - 6 < 0 then (0 : Int) else (i : Int) - 6) = ((i - 6 : Nat) : Int) := by
    split_ifs <;> omega
  have e2 : (if (i : Int) + (keyword.length : Int) + 6 ≥ (doc.Text.length : Int)
        then (doc.Text.length : Int) - 1 else (i : Int) + (keyword.length : Int) + 6) =
      ((if i + keyword.length + 6 ≥ doc.Text.length then doc.Text.length - 1
          else i + keyword.length + 6 : Nat) : Int) := by
    split_ifs <;> omega
  rw [e1, e2]
  cases slice doc.Text ((i - 6 : Nat) : Int)
        ((if i + keyword.length + 6 ≥ doc.Text.length then doc.Text.length - 1
          else i + keyword.length + 6 : Nat) : Int) <;> simp

theorem window_split (s : GoString) (i k : Nat) :
    (s.drop (i - 6)).take (min i 6 + k + 6) =
      (s.drop (i - 6)).take (min i 6) ++ (s.drop i).take k ++ (s.drop (i + k)).take 6 := by
  have h : i - 6 + min i 6 = i := by omega
  rw [Nat.add_assoc, List.take_add, List.drop_drop, List.take_add, List.drop_drop]
  simp [h, List.append_assoc, Nat.add_comm]

theorem checkKeywordMatch_not_found (lowerRune : Nat → Nat) (doc : Document) (keyword : GoString)
    (h : ¬ ToLower lowerRune keyword <:+: ToLower lowerRune doc.Text) :
    ∃ context, checkKeywordMatch lowerRune doc keyword = some (false, context) := by
  unfold checkKeywordMatch
  by_cases hT : doc.Text.length = 0
  · exact ⟨[], by simp [hT]⟩
  · simp only [hT, if_false, Index_absent _ _ h]
    have hpos : 0 < doc.Text.length := Nat.pos_of_ne_zero hT
    have hs : ∃ c, slice doc.Text (if (-1 : Int) - 6 < 0 then 0 else -1 - 6)
        (if (-1 : Int) + (keyword.length : Int) + 6 ≥ (doc.Text.length : Int)
          then (doc.Text.length : Int) - 1 else -1 + (keyword.length : Int) + 6) = some c := by
      unfold slice
      split_ifs <;> first | exact ⟨_, rfl⟩ | (exfalso; omega)
    obtain ⟨c, hc⟩ := hs
    refine ⟨Trim (removeNewlines c), ?_⟩
    simp only [hc]
    simp



theorem checkKeywordMatch_in_range (lowerRune : Nat → Nat) (doc : Document) (keyword : GoString)
    (hlen : (ToLower lowerRune doc.Text).length = doc.Text.length) :
    ∃ res, checkKeywordMatch lowerRune doc keyword = some res := by
  by_cases hT : doc.Text.length = 0
  · exact ⟨(false, []), by simp [checkKeywordMatch, hT]⟩
  · by_cases hocc : ToLower lowerRune keyword <:+: ToLower lowerRune doc.Text
    · obtain ⟨i, hi, hIdx⟩ := Index_present _ _ hocc
      obtain ⟨hle, -⟩ := indexOf?_some_take _ _ _ hi
      rw [hlen] at hle
      rw [checkKeywordMatch_found lowerRune doc keyword i hT hIdx,
        slice_nat _ _ _ (by split_ifs <;> omega) (by split_ifs <;> omega)]
      exact ⟨_, rfl⟩
    · obtain ⟨c, hc⟩ := checkKeywordMatch_not_found lowerRune doc keyword hocc
      exact ⟨_, hc⟩

/-! ## Facts about Go maps and `dedupeList` -/

theorem GoMap.has_iff_mem_keys {β : Type} (m : GoMap β) (key : GoString) :
    m.has key = true ↔ key ∈ m.keys := by
  simp [GoMap.has, GoMap.keys, List.any_eq_true]

theorem GoMap.keys_setEntries {β : Type} (l : List (GoString × β)) (key : GoString) (val : β) :
    (GoMap.setEntries key val l).map Prod.fst =
      if key ∈ l.map Prod.fst then l.map Prod.fst else l.map Prod.fst ++ [key] := by
  induction l with
  | nil => simp [GoMap.setEntries]
  | cons e rest ih =>
    unfold GoMap.setEntries
    by_cases he : e.1 = key
    · simp [he]
    · have hne : ¬ key = e.1 := fun h => he h.symm
      simp only [he, if_false, List.map_cons, List.mem_cons, hne, false_or]
      rw [ih]
      split_ifs <;> simp

theorem GoMap.keys_set {β : Type} (m : GoMap β) (key : GoString) (val : β) :
    (m.set key val).keys = if key ∈ m.keys then m.keys else m.keys ++ [key] :=
  GoMap.keys_setEntries m.entries key val

theorem GoMap.mem_keys_set {β : Type} (m : GoMap β) (key : GoString) (val : β) (x : GoString) :
    x ∈ (m.set key val).keys ↔ x ∈ m.keys ∨ x = key := by
  rw [GoMap.keys_set]
  split_ifs with h
  · constructor
    · exact Or.inl
    · rintro (h1 | rfl)
      · exact h1
      · exact h
  · simp

theorem GoMap.nodup_keys_set {β : Type} (m : GoMap β) (key : GoString) (val : β)
    (h : m.keys.Nodup) : (m.set key val).keys.Nodup := by
  rw [GoMap.keys_set]
  split_ifs with hk
  · exact h
  · exact List.Nodup.append h (List.nodup_singleton key) (by simpa using hk)

/-- The map built by the first loop of `dedupeList`, from any starting map. -/
theorem tmpMap_keys (input : List GoString) (m : GoMap Bool) (h : m.keys.Nodup) :
    (input.foldl (fun m val => m.set val true) m).keys.Nodup ∧
      ∀ x, x ∈ (input.foldl (fun m val => m.set val true) m).keys ↔ x ∈ m.keys ∨ x ∈ input := by
  induction input generalizing m with
  | nil => simp [h]
  | cons a rest ih =>
    obtain ⟨h1, h2⟩ := ih (m.set a true) (GoMap.nodup_keys_set m a true h)
    refine ⟨h1, fun x => ?_⟩
    rw [List.foldl_cons, h2, GoMap.mem_keys_set]
    simp only [List.mem_cons]
    tauto

theorem foldl_append_key {β : Type} (l : List (GoString × β)) (acc : List GoString) :
    l.foldl (fun output e => output ++ [e.1]) acc = acc ++ l.map Prod.fst := by
  induction l generalizing acc with
  | nil => simp
  | cons e rest ih => simp [ih]

theorem dedupeList_perm_keys (ρ : RangeOrder Bool) (input : List GoString) :
    (dedupeList ρ input).Perm (input.foldl (fun m val => m.set val true) (GoMap.empty : GoMap Bool)).keys := by
  unfold dedupeList
  simp only [foldl_append_key, List.nil_append]
  exact (ρ.perm _).map Prod.fst

theorem dedupeList_nodup (ρ : RangeOrder Bool) (input : List GoString) :
    (dedupeList ρ input).Nodup :=
  (dedupeList_perm_keys ρ input).nodup_iff.mpr
    (tmpMap_keys input GoMap.empty (by simp [GoMap.keys, GoMap.empty])).1

theorem mem_dedupeList (ρ : RangeOrder Bool) (input : List GoString) (x : GoString) :
    x ∈ dedupeList ρ input ↔ x ∈ input := by
  rw [(dedupeList_perm_keys ρ input).mem_iff, (tmpMap_keys input GoMap.empty (by simp [GoMap.keys, GoMap.empty])).2]
  simp [GoMap.keys, GoMap.empty]


/-! ## Facts about the crawl loops -/

section Loops

variable {World Body URL Error : Type}

theorem except_cases {ε α : Type} (x : Except ε α) :
    (∃ e, x = .error e) ∨ (∃ a, x = .ok a) := by
  cases x with
  | error e => exact Or.inl ⟨e, rfl⟩
  | ok a => exact Or.inr ⟨a, rfl⟩

theorem queueFoundURLs_spec (env : Env World Body URL Error) (results : GoMap PageResult)
    (crawlURL : GoString) (foundURLs newURLs : List GoString) :
    ∃ queued, queueFoundURLs env results crawlURL foundURLs newURLs = newURLs ++ queued ∧
      queued.Sublist foundURLs ∧
      ∀ u, u ∈ queued ↔ (u ∈ foundURLs ∧ results.has u = false ∧
        ∃ cur found, env.Parse crawlURL = .ok cur ∧ env.Parse u = .ok found ∧
          env.Hostname found = env.Hostname cur) := by
  induction foundURLs generalizing newURLs with
  | nil => exact ⟨[], by simp [queueFoundURLs]⟩
  | cons a rest ih =>
    have skip : ∀ (_ : ¬ (results.has a = false ∧
        ∃ cur found, env.Parse crawlURL = .ok cur ∧ env.Parse a = .ok found ∧
          env.Hostname found = env.Hostname cur)),
        queueFoundURLs env results crawlURL (a :: rest) newURLs =
          queueFoundURLs env results crawlURL rest newURLs →
        ∃ queued, queueFoundURLs env results crawlURL (a :: rest) newURLs = newURLs ++ queued ∧
          queued.Sublist (a :: rest) ∧
          ∀ u, u ∈ queued ↔ (u ∈ a :: rest ∧ results.has u = false ∧
            ∃ cur found, env.Parse crawlURL = .ok cur ∧ env.Parse u = .ok found ∧
              env.Hostname found = env.Hostname cur) := by
      intro hnot heq
      obtain ⟨q, hq, hsub, hmem⟩ := ih newURLs
      refine ⟨q, by rw [heq, hq], hsub.cons a, fun u => ?_⟩
      rw [hmem, List.mem_cons]
      constructor
      · rintro ⟨h1, h2⟩; exact ⟨Or.inr h1, h2⟩
      · rintro ⟨h1 | h1, h2⟩
        · subst h1; exact absurd h2 hnot
        · exact ⟨h1, h2⟩
    by_cases hhas : results.has a = true
    · exact skip (by simp [hhas]) (by simp [queueFoundURLs, hhas])
    · rcases except_cases (env.Parse crawlURL) with ⟨e, hc⟩ | ⟨cur, hc⟩
      · exact skip (by simp [hc]) (by simp [queueFoundURLs, hhas, hc])
      · rcases except_cases (env.Parse a) with ⟨e, hf⟩ | ⟨found, hf⟩
        · exact skip (by simp [hf]) (by simp [queueFoundURLs, hhas, hc, hf])
        · by_cases hh : env.Hostname found = env.Hostname cur
          · obtain ⟨q, hq, hsub, hmem⟩ := ih (newURLs ++ [a])
            refine ⟨a :: q, ?_, hsub.cons₂ a, fun u => ?_⟩
            · simp [queueFoundURLs, hhas, hc, hf, hh, hq]
            · rw [List.mem_cons, hmem, List.mem_cons]
              constructor
              · rintro (h1 | ⟨h1, h2⟩)
                · subst h1
                  exact ⟨Or.inl rfl, by simpa using hhas, cur, found, hc, hf, hh⟩
                · exact ⟨Or.inr h1, h2⟩
              · rintro ⟨h1 | h1, h2⟩
                · exact Or.inl h1
                · exact Or.inr ⟨h1, h2⟩
          · exact skip (by simp [hc, hf, hh]) (by simp [queueFoundURLs, hhas, hc, hf, hh])

theorem crawlPage_nodup (env : Env World Body URL Error) (w w1 : World)
    (sourceURL keyword : GoString) (foundURLs : List GoString) (m : Bool) (c : GoString)
    (h : crawlPage env w sourceURL keyword = (.ok (foundURLs, m, c), w1)) :
    foundURLs.Nodup := by
  unfold crawlPage at h
  rcases hg : env.Get w sourceURL with ⟨r, w2⟩
  rw [hg] at h
  cases r with
  | error e => simp at h
  | ok resp =>
    simp only at h
    cases hd : env.NewDocumentFromReader resp.2 with
    | error e => simp [hd] at h
    | ok doc =>
      simp only [hd] at h
      cases hk : checkKeywordMatch env.lowerRune doc keyword with
      | none => simp [hk] at h
      | some mc =>
        simp only [hk] at h
        cases hp : env.Parse sourceURL with
        | error e => simp [hp] at h
        | ok root =>
          simp only [hp, Prod.mk.injEq, Outcome.ok.injEq] at h
          rw [← h.1.1]
          exact dedupeList_nodup _ _

theorem outcome_cases {α : Type} (x : Outcome Error α × World) :
    (∃ a w, x = (.ok a, w)) ∨ (∃ e w, x = (.err e, w)) ∨ (∃ w, x = (.panic, w)) := by
  rcases x with ⟨o, w⟩
  cases o with
  | ok a => exact Or.inl ⟨a, w, rfl⟩
  | err e => exact Or.inr (Or.inl ⟨e, w, rfl⟩)
  | panic => exact Or.inr (Or.inr ⟨w, rfl⟩)

theorem crawlLevel_cons_ok (env : Env World Body URL Error) (keyword crawlURL : GoString)
    (rest : List GoString) (results : GoMap PageResult) (newURLs : List GoString) (w w1 : World)
    (foundURLs : List GoString) (m : Bool) (c : GoString)
    (h : crawlPage env w crawlURL keyword = (.ok (foundURLs, m, c), w1)) :
    crawlLevel env keyword (crawlURL :: rest) results newURLs w =
      crawlLevel env keyword rest (results.set crawlURL ⟨crawlURL, m, c⟩)
        (queueFoundURLs env (results.set crawlURL ⟨crawlURL, m, c⟩) crawlURL foundURLs newURLs)
        w1 := by
  rw [crawlLevel, h]

theorem crawlLevel_cons_err (env : Env World Body URL Error) (keyword crawlURL : GoString)
    (rest : List GoString) (results : GoMap PageResult) (newURLs : List GoString) (w w1 : World)
    (e : Error) (h : crawlPage env w crawlURL keyword = (.err e, w1)) :
    crawlLevel env keyword (crawlURL :: rest) results newURLs w = (.err e, w1) := by
  rw [crawlLevel, h]

theorem crawlLevel_cons_panic (env : Env World Body URL Error) (keyword crawlURL : GoString)
    (rest : List GoString) (results : GoMap PageResult) (newURLs : List GoString) (w w1 : World)
    (h : crawlPage env w crawlURL keyword = (.panic, w1)) :
    crawlLevel env keyword (crawlURL :: rest) results newURLs w = (.panic, w1) := by
  rw [crawlLevel, h]

theorem crawlLevel_cons_inv (env : Env World Body URL Error) (keyword crawlURL : GoString)
    (rest : List GoString) (results : GoMap PageResult) (newURLs : List GoString) (w w' : World)
    (x : GoMap PageResult × List GoString)
    (h : crawlLevel env keyword (crawlURL :: rest) results newURLs w = (.ok x, w')) :
    ∃ foundURLs m c w1, crawlPage env w crawlURL keyword = (.ok (foundURLs, m, c), w1) ∧
      crawlLevel env keyword rest (results.set crawlURL ⟨crawlURL, m, c⟩)
        (queueFoundURLs env (results.set crawlURL ⟨crawlURL, m, c⟩) crawlURL foundURLs newURLs)
        w1 = (.ok x, w') := by
  rcases outcome_cases (crawlPage env w crawlURL keyword) with
    ⟨⟨f, m, c⟩, w1, hp⟩ | ⟨e, w1, hp⟩ | ⟨w1, hp⟩
  · exact ⟨f, m, c, w1, hp, by rw [← crawlLevel_cons_ok env keyword crawlURL rest _ _ w w1 f m c hp]; exact h⟩
  · rw [crawlLevel_cons_err env keyword crawlURL rest _ _ w w1 e hp] at h
    simp at h
  · rw [crawlLevel_cons_panic env keyword crawlURL rest _ _ w w1 hp] at h
    simp at h

theorem crawlLevel_append (env : Env World Body URL Error) (keyword : GoString)
    (pre rest : List GoString) (results r1 : GoMap PageResult) (newURLs q1 : List GoString)
    (w w1 : World) (h : crawlLevel env keyword pre results newURLs w = (.ok (r1, q1), w1)) :
    crawlLevel env keyword (pre ++ rest) results newURLs w =
      crawlLevel env keyword rest r1 q1 w1 := by
  induction pre generalizing results newURLs w with
  | nil =>
    simp only [crawlLevel, Prod.mk.injEq, Outcome.ok.injEq] at h
    obtain ⟨⟨rfl, rfl⟩, rfl⟩ := h
    rfl
  | cons a pre ih =>
    obtain ⟨f, m, c, w2, hp, hrest⟩ := crawlLevel_cons_inv env keyword a pre _ _ _ _ _ h
    rw [List.cons_append, crawlLevel_cons_ok env keyword a _ _ _ w w2 f m c hp]
    exact ih _ _ _ hrest

/-- Where the links queued during one level come from. -/
theorem crawlLevel_queued (env : Env World Body URL Error) (keyword : GoString)
    (crawlURLs : List GoString) (results results' : GoMap PageResult)
    (newURLs newURLs' : List GoString) (w w' : World)
    (h : crawlLevel env keyword crawlURLs results newURLs w = (.ok (results', newURLs'), w')) :
    ∃ queued, newURLs' = newURLs ++ queued ∧
      ∀ u ∈ queued, ∃ pre src post, crawlURLs = pre ++ src :: post ∧
        u ∉ results.keys ∧ u ∉ pre ∧ u ≠ src ∧
        (∃ ws foundURLs m c ws', crawlPage env ws src keyword = (.ok (foundURLs, m, c), ws') ∧
          u ∈ foundURLs) ∧
        ∃ cur found, env.Parse src = .ok cur ∧ env.Parse u = .ok found ∧
          env.Hostname found = env.Hostname cur := by
  induction crawlURLs generalizing results newURLs w with
  | nil =>
    simp only [crawlLevel, Prod.mk.injEq, Outcome.ok.injEq] at h
    exact ⟨[], by simp [h.1.2]⟩
  | cons a rest ih =>
    obtain ⟨f, m, c, w1, hp, hrest⟩ := crawlLevel_cons_inv env keyword a rest _ _ _ _ _ h
    obtain ⟨q1, hq1, -, hmem1⟩ :=
      queueFoundURLs_spec env (results.set a ⟨a, m, c⟩) a f newURLs
    obtain ⟨q2, hq2, hmem2⟩ := ih _ _ _ hrest
    refine ⟨q1 ++ q2, by rw [hq2, hq1, List.append_assoc], fun u hu => ?_⟩
    rcases List.mem_append.mp hu with h1 | h2
    · obtain ⟨hfound, hnot, hhost⟩ := (hmem1 u).mp h1
      have hk : u ∉ (results.set a ⟨a, m, c⟩).keys := by
        intro hin
        rw [(GoMap.has_iff_mem_keys _ _).mpr hin] at hnot
        exact Bool.noConfusion hnot
      rw [GoMap.mem_keys_set] at hk
      exact ⟨[], a, rest, rfl, fun hin => hk (Or.inl hin), by simp,
        fun heq => hk (Or.inr heq), ⟨w, f, m, c, w1, hp, hfound⟩, hhost⟩
    · obtain ⟨pre, src, post, hsplit, hk, hpre, hne, hfrom, hhost⟩ := hmem2 u h2
      rw [GoMap.mem_keys_set] at hk
      refine ⟨a :: pre, src, post, by rw [hsplit]; rfl, fun hin => hk (Or.inl hin), ?_, hne,
        hfrom, hhost⟩
      intro hin
      rcases List.mem_cons.mp hin with h3 | h3
      · exact hk (Or.inr h3)
      · exact hpre h3

theorem GoMap.mem_setEntries {β : Type} (l : List (GoString × β)) (key : GoString) (val : β)
    (e : GoString × β) (h : e ∈ GoMap.setEntries key val l) : e ∈ l ∨ e = (key, val) := by
  induction l with
  | nil => simpa [GoMap.setEntries] using h
  | cons a rest ih =>
    unfold GoMap.setEntries at h
    by_cases ha : a.1 = key
    · simp only [ha, if_true, List.mem_cons] at h
      rcases h with h | h
      · exact Or.inr h
      · exact Or.inl (List.mem_cons_of_mem _ h)
    · simp only [ha, if_false, List.mem_cons] at h
      rcases h with h | h
      · exact Or.inl (by simp [h])
      · rcases ih h with h1 | h1
        · exact Or.inl (List.mem_cons_of_mem _ h1)
        · exact Or.inr h1

/-- The visited map after one level. -/
theorem crawlLevel_results (env : Env World Body URL Error) (keyword : GoString)
    (crawlURLs : List GoString) (results results' : GoMap PageResult)
    (newURLs newURLs' : List GoString) (w w' : World)
    (h : crawlLevel env keyword crawlURLs results newURLs w = (.ok (results', newURLs'), w'))
    (hnd : results.keys.Nodup) (hurl : ∀ e ∈ results.entries, e.2.URL = e.1) :
    results'.keys.Nodup ∧ (∀ e ∈ results'.entries, e.2.URL = e.1) ∧
      ∀ u, u ∈ results'.keys ↔ u ∈ results.keys ∨ u ∈ crawlURLs := by
  induction crawlURLs generalizing results newURLs w with
  | nil =>
    simp only [crawlLevel, Prod.mk.injEq, Outcome.ok.injEq] at h
    obtain ⟨⟨rfl, -⟩, -⟩ := h
    exact ⟨hnd, hurl, by simp⟩
  | cons a rest ih =>
    obtain ⟨f, m, c, w1, hp, hrest⟩ := crawlLevel_cons_inv env keyword a rest _ _ _ _ _ h
    have hurl1 : ∀ e ∈ (results.set a ⟨a, m, c⟩).entries, e.2.URL = e.1 := by
      intro e he
      rcases GoMap.mem_setEntries _ _ _ _ he with h1 | h1
      · exact hurl e h1
      · rw [h1]
    obtain ⟨h1, h2, h3⟩ := ih _ _ _ hrest (GoMap.nodup_keys_set _ _ _ hnd) hurl1
    refine ⟨h1, h2, fun u => ?_⟩
    rw [h3, GoMap.mem_keys_set, List.mem_cons]
    tauto

theorem crawlLevel_never_fails (env : Env World Body URL Error) (keyword : GoString)
    (hok : ∀ w u, ∃ out w1, crawlPage env w u keyword = (.ok out, w1))
    (crawlURLs : List GoString) (results : GoMap PageResult) (newURLs : List GoString)
    (w : World) :
    ∃ x w', crawlLevel env keyword crawlURLs results newURLs w = (.ok x, w') := by
  induction crawlURLs generalizing results newURLs w with
  | nil => exact ⟨_, _, rfl⟩
  | cons a rest ih =>
    obtain ⟨⟨f, m, c⟩, w1, hp⟩ := hok w a
    rw [crawlLevel_cons_ok env keyword a rest _ _ w w1 f m c hp]
    exact ih _ _ _

theorem crawlLoop_one (env : Env World Body URL Error) (keyword : GoString)
    (results : GoMap PageResult) (crawlURLs : List GoString) (w : World) :
    crawlLoop env keyword 1 results crawlURLs w =
      crawlLevel env keyword crawlURLs results [] w := by
  rcases outcome_cases (crawlLevel env keyword crawlURLs results [] w) with
    ⟨⟨r, q⟩, w1, h⟩ | ⟨e, w1, h⟩ | ⟨w1, h⟩ <;> simp [crawlLoop, h]

theorem crawlLoop_add_ok (env : Env World Body URL Error) (keyword : GoString) (n m : Nat)
    (results r1 : GoMap PageResult) (crawlURLs f1 : List GoString) (w w1 : World)
    (h : crawlLoop env keyword n results crawlURLs w = (.ok (r1, f1), w1)) :
    crawlLoop env keyword (n + m) results crawlURLs w = crawlLoop env keyword m r1 f1 w1 := by
  induction n generalizing results crawlURLs w with
  | zero =>
    simp only [crawlLoop, Prod.mk.injEq, Outcome.ok.injEq] at h
    obtain ⟨⟨rfl, rfl⟩, rfl⟩ := h
    simp
  | succ n ih =>
    rw [Nat.add_right_comm]
    rcases outcome_cases (crawlLevel env keyword crawlURLs results [] w) with
      ⟨⟨r, q⟩, w2, hl⟩ | ⟨e, w2, hl⟩ | ⟨w2, hl⟩
    · rw [crawlLoop, hl] at h ⊢
      exact ih _ _ _ h
    · rw [crawlLoop, hl] at h
      simp at h
    · rw [crawlLoop, hl] at h
      simp at h

theorem crawlLoop_add_err (env : Env World Body URL Error) (keyword : GoString) (n m : Nat)
    (results : GoMap PageResult) (crawlURLs : List GoString) (w w1 : World) (e : Error)
    (h : crawlLoop env keyword n results crawlURLs w = (.err e, w1)) :
    crawlLoop env keyword (n + m) results crawlURLs w = (.err e, w1) := by
  induction n generalizing results crawlURLs w with
  | zero => simp [crawlLoop] at h
  | succ n ih =>
    rw [Nat.add_right_comm]
    rcases outcome_cases (crawlLevel env keyword crawlURLs results [] w) with
      ⟨⟨r, q⟩, w2, hl⟩ | ⟨e2, w2, hl⟩ | ⟨w2, hl⟩
    · rw [crawlLoop, hl] at h ⊢
      exact ih _ _ _ h
    · rw [crawlLoop, hl] at h ⊢
      exact h
    · rw [crawlLoop, hl] at h
      simp at h

theorem crawlLoop_add_panic (env : Env World Body URL Error) (keyword : GoString) (n m : Nat)
    (results : GoMap PageResult) (crawlURLs : List GoString) (w w1 : World)
    (h : crawlLoop env keyword n results crawlURLs w = (.panic, w1)) :
    crawlLoop env keyword (n + m) results crawlURLs w = (.panic, w1) := by
  induction n generalizing results crawlURLs w with
  | zero => simp [crawlLoop] at h
  | succ n ih =>
    rw [Nat.add_right_comm]
    rcases outcome_cases (crawlLevel env keyword crawlURLs results [] w) with
      ⟨⟨r, q⟩, w2, hl⟩ | ⟨e2, w2, hl⟩ | ⟨w2, hl⟩
    · rw [crawlLoop, hl] at h ⊢
      exact ih _ _ _ h
    · rw [crawlLoop, hl] at h
      simp at h
    · rw [crawlLoop, hl] at h ⊢
      exact h

theorem crawlLoop_succ_inv (env : Env World Body URL Error) (keyword : GoString) (n : Nat)
    (results : GoMap PageResult) (crawlURLs : List GoString) (w w' : World)
    (x : GoMap PageResult × List GoString)
    (h : crawlLoop env keyword (n + 1) results crawlURLs w = (.ok x, w')) :
    ∃ r1 f1 w1, crawlLoop env keyword n results crawlURLs w = (.ok (r1, f1), w1) ∧
      crawlLevel env keyword f1 r1 [] w1 = (.ok x, w') := by
  rcases outcome_cases (crawlLoop env keyword n results crawlURLs w) with
    ⟨⟨r, q⟩, w2, hl⟩ | ⟨e2, w2, hl⟩ | ⟨w2, hl⟩
  · refine ⟨r, q, w2, hl, ?_⟩
    rw [crawlLoop_add_ok env keyword n 1 _ _ _ _ _ _ hl, crawlLoop_one] at h
    exact h
  · rw [crawlLoop_add_err env keyword n 1 _ _ _ _ _ hl] at h
    simp at h
  · rw [crawlLoop_add_panic env keyword n 1 _ _ _ _ hl] at h
    simp at h

/-- The visited map after any number of levels, starting from the empty map. -/
theorem crawlLoop_results (env : Env World Body URL Error) (keyword startURL : GoString)
    (w : World) (n : Nat) (r : GoMap PageResult) (f : List GoString) (w' : World)
    (h : crawlLoop env keyword n GoMap.empty [startURL] w = (.ok (r, f), w')) :
    r.keys.Nodup ∧ ∀ e ∈ r.entries, e.2.URL = e.1 := by
  induction n generalizing r f w' with
  | zero =>
    simp only [crawlLoop, Prod.mk.injEq, Outcome.ok.injEq] at h
    obtain ⟨⟨rfl, -⟩, -⟩ := h
    simp [GoMap.keys, GoMap.empty]
  | succ n ih =>
    obtain ⟨r1, f1, w1, h1, h2⟩ := crawlLoop_succ_inv env keyword n _ _ _ _ _ h
    obtain ⟨hn, hu⟩ := ih _ _ _ h1
    obtain ⟨a, b, -⟩ := crawlLevel_results env keyword f1 r1 r [] f w1 w' h2 hn hu
    exact ⟨a, b⟩

theorem crawlLoop_never_fails (env : Env World Body URL Error) (keyword : GoString)
    (hok : ∀ w u, ∃ out w1, crawlPage env w u keyword = (.ok out, w1))
    (n : Nat) (results : GoMap PageResult) (crawlURLs : List GoString) (w : World) :
    ∃ x w', crawlLoop env keyword n results crawlURLs w = (.ok x, w') := by
  induction n generalizing results crawlURLs w with
  | zero => exact ⟨_, _, rfl⟩
  | succ n ih =>
    obtain ⟨⟨r, q⟩, w1, hl⟩ := crawlLevel_never_fails env keyword hok crawlURLs results [] w
    rw [crawlLoop, hl]
    exact ih _ _ _

theorem foldl_matches (l : List (GoString × PageResult)) (acc : List PageResult) :
    l.foldl (fun matchList e => if e.2.IsKeywordMatch then matchList ++ [e.2] else matchList) acc =
      acc ++ (l.map Prod.snd).filter (fun p => p.IsKeywordMatch) := by
  induction l generalizing acc with
  | nil => simp
  | cons e rest ih =>
    by_cases he : e.2.IsKeywordMatch = true
    · simp [ih, he]
    · simp [ih, he]

/-- The keys of the visited map are the URLs of the frontiers of the levels run. -/
theorem crawlLoop_keys (env : Env World Body URL Error) (keyword startURL : GoString)
    (w : World) (n : Nat) (r : GoMap PageResult) (f : List GoString) (w' : World)
    (h : crawlLoop env keyword n GoMap.empty [startURL] w = (.ok (r, f), w')) (u : GoString) :
    u ∈ r.keys ↔ ∃ i, i < n ∧ ∃ ri fi wi,
      crawlLoop env keyword i GoMap.empty [startURL] w = (.ok (ri, fi), wi) ∧ u ∈ fi := by
  induction n generalizing r f w' with
  | zero =>
    simp only [crawlLoop, Prod.mk.injEq, Outcome.ok.injEq] at h
    obtain ⟨⟨rfl, -⟩, -⟩ := h
    simp [GoMap.keys, GoMap.empty]
  | succ n ih =>
    obtain ⟨r1, f1, w1, h1, h2⟩ := crawlLoop_succ_inv env keyword n _ _ _ _ _ h
    obtain ⟨hn, hu⟩ := crawlLoop_results env keyword startURL w n r1 f1 w1 h1
    obtain ⟨-, -, hk⟩ := crawlLevel_results env keyword f1 r1 r [] f w1 w' h2 hn hu
    rw [hk, ih r1 f1 w1 h1]
    constructor
    · rintro (⟨i, hi, x⟩ | hf)
      · exact ⟨i, by omega, x⟩
      · exact ⟨n, by omega, r1, f1, w1, h1, hf⟩
    · rintro ⟨i, hi, ri, fi, wi, hl, hmem⟩
      by_cases hin : i < n
      · exact Or.inl ⟨i, hin, ri, fi, wi, hl, hmem⟩
      · have : i = n := by omega
        subst this
        rw [h1] at hl
        simp only [Prod.mk.injEq, Outcome.ok.injEq] at hl
        obtain ⟨⟨-, rfl⟩, -⟩ := hl
        exact Or.inr hmem

theorem queueFoundURLs_append (env : Env World Body URL Error) (results : GoMap PageResult)
    (crawlURL : GoString) (foundURLs newURLs : List GoString) :
    queueFoundURLs env results crawlURL foundURLs newURLs =
      newURLs ++ queueFoundURLs env results crawlURL foundURLs [] := by
  induction foundURLs generalizing newURLs with
  | nil => simp [queueFoundURLs]
  | cons a rest ih =>
    by_cases hhas : results.has a = true
    · simpa [queueFoundURLs, hhas] using ih newURLs
    · rcases except_cases (env.Parse crawlURL) with ⟨e, hc⟩ | ⟨cur, hc⟩
      · simpa [queueFoundURLs, hhas, hc] using ih newURLs
      · rcases except_cases (env.Parse a) with ⟨e, hf⟩ | ⟨found, hf⟩
        · simpa [queueFoundURLs, hhas, hc, hf] using ih newURLs
        · by_cases hh : env.Hostname found = env.Hostname cur
          · simp only [queueFoundURLs, hhas, hc, hf, hh, if_true, Bool.false_eq_true, if_false,
              List.nil_append]
            rw [ih (newURLs ++ [a]), ih [a], List.append_assoc]
          · simpa [queueFoundURLs, hhas, hc, hf, hh] using ih newURLs

/-- The links one page queues: which found URLs they are. -/
theorem queueFoundURLs_block (env : Env World Body URL Error) (results : GoMap PageResult)
    (crawlURL : GoString) (foundURLs : List GoString) :
    (queueFoundURLs env results crawlURL foundURLs []).Sublist foundURLs ∧
      ∀ u, u ∈ queueFoundURLs env results crawlURL foundURLs [] ↔
        (u ∈ foundURLs ∧ u ∉ results.keys ∧
          ∃ cur found, env.Parse crawlURL = .ok cur ∧ env.Parse u = .ok found ∧
            env.Hostname found = env.Hostname cur) := by
  obtain ⟨q, hq, hsub, hmem⟩ := queueFoundURLs_spec env results crawlURL foundURLs []
  rw [List.nil_append] at hq
  rw [hq]
  refine ⟨hsub, fun u => ?_⟩
  rw [hmem]
  have hk : results.has u = false ↔ u ∉ results.keys := by
    rw [← GoMap.has_iff_mem_keys]
    cases results.has u <;> simp
  rw [hk]

/-- One level, page by page: what each page of the frontier appends. -/
theorem crawlLevel_trace (env : Env World Body URL Error) (keyword : GoString)
    (crawlURLs : List GoString) (results results' : GoMap PageResult)
    (newURLs newURLs' : List GoString) (w w' : World)
    (h : crawlLevel env keyword crawlURLs results newURLs w = (.ok (results', newURLs'), w')) :
    ∃ blocks : List (List GoString), newURLs' = newURLs ++ blocks.flatten ∧
      blocks.length = crawlURLs.length ∧ (∀ b ∈ blocks, b.Nodup) ∧
      ∀ pre src post, crawlURLs = pre ++ src :: post →
        ∃ r1 w1 foundURLs m c w2,
          crawlLevel env keyword pre results newURLs w =
            (.ok (r1, newURLs ++ (blocks.take pre.length).flatten), w1) ∧
          crawlPage env w1 src keyword = (.ok (foundURLs, m, c), w2) ∧
          blocks[pre.length]? =
            some (queueFoundURLs env (r1.set src ⟨src, m, c⟩) src foundURLs []) := by
  induction crawlURLs generalizing results newURLs w with
  | nil =>
    simp only [crawlLevel, Prod.mk.injEq, Outcome.ok.injEq] at h
    refine ⟨[], by simp [h.1.2], rfl, by simp, fun pre src post hs => ?_⟩
    simp at hs
  | cons a rest ih =>
    obtain ⟨f, m, c, w1, hp, hrest⟩ := crawlLevel_cons_inv env keyword a rest _ _ _ _ _ h
    rw [queueFoundURLs_append] at hrest
    obtain ⟨bs, hq, hlen, hnd, hsplit⟩ := ih _ _ _ hrest
    refine ⟨queueFoundURLs env (results.set a ⟨a, m, c⟩) a f [] :: bs, ?_, by simp [hlen], ?_, ?_⟩
    · rw [hq]; simp
    · intro b hb
      rcases List.mem_cons.mp hb with h1 | h1
      · rw [h1]
        exact (crawlPage_nodup env w w1 a keyword f m c hp).sublist
          (queueFoundURLs_block env _ a f).1
      · exact hnd b h1
    · intro pre src post hs
      cases pre with
      | nil =>
        simp only [List.nil_append, List.cons.injEq] at hs
        obtain ⟨rfl, rfl⟩ := hs
        exact ⟨results, w, f, m, c, w1, by simp [crawlLevel], hp, by simp⟩
      | cons p pre' =>
        simp only [List.cons_append, List.cons.injEq] at hs
        obtain ⟨rfl, hs'⟩ := hs
        obtain ⟨r1, w1', f', m', c', w2, h1, h2, h3⟩ := hsplit pre' src post hs'
        refine ⟨r1, w1', f', m', c', w2, ?_, h2, by simpa using h3⟩
        rw [crawlLevel_cons_ok env keyword a pre' _ _ w w1 f m c hp, queueFoundURLs_append, h1]
        simp

theorem filter_eq_length_nodup (b : List GoString) (u : GoString) (h : b.Nodup) :
    (b.filter (fun x => decide (x = u))).length = if u ∈ b then 1 else 0 := by
  induction b with
  | nil => simp
  | cons a t ih =>
    obtain ⟨hat, ht⟩ := List.nodup_cons.mp h
    by_cases hau : a = u
    · subst hau
      simp [List.filter_cons, ih ht, hat]
    · have hne : ¬ u = a := fun e => hau e.symm
      simp [List.filter_cons, hau, hne, ih ht]

theorem flatten_filter_length (blocks : List (List GoString)) (u : GoString)
    (h : ∀ b ∈ blocks, b.Nodup) :
    (blocks.flatten.filter (fun x => decide (x = u))).length =
      (blocks.filter (fun b => decide (u ∈ b))).length := by
  induction blocks with
  | nil => simp
  | cons b bs ih =>
    have hb := h b (List.mem_cons_self _ _)
    have hbs := ih (fun x hx => h x (List.mem_cons_of_mem _ hx))
    rw [List.flatten_cons, List.filter_append, List.length_append, hbs,
      filter_eq_length_nodup b u hb]
    by_cases hu : u ∈ b
    · simp [List.filter_cons, hu]; omega
    · simp [List.filter_cons, hu]

/-- Crawling one more page after a prefix of the frontier. -/
theorem crawlLevel_page (env : Env World Body URL Error) (keyword : GoString)
    (pre : List GoString) (src : GoString) (r0 r1 : GoMap PageResult) (q0 q1 : List GoString)
    (w0 w1 w2 : World) (foundURLs : List GoString) (m : Bool) (c : GoString)
    (h1 : crawlLevel env keyword pre r0 q0 w0 = (.ok (r1, q1), w1))
    (h2 : crawlPage env w1 src keyword = (.ok (foundURLs, m, c), w2)) :
    crawlLevel env keyword (pre ++ [src]) r0 q0 w0 =
      (.ok (r1.set src ⟨src, m, c⟩,
        q1 ++ queueFoundURLs env (r1.set src ⟨src, m, c⟩) src foundURLs []), w2) := by
  rw [crawlLevel_append env keyword pre [src] r0 r1 q0 q1 w0 w1 h1,
    crawlLevel_cons_ok env keyword src [] r1 q1 w1 w2 foundURLs m c h2, queueFoundURLs_append]
  rfl

end Loops

/-! ## The keyword matcher: claims C1, C2, C3 and C10 -/

/-- Claim C1, as amended.  Let the page text `T` be non-empty and let the
lower-cased keyword occur in the lower-cased text, first at byte index `i`.
(a) When lower-casing keeps the byte length of `T` (every ASCII text does),
`checkKeywordMatch` reports `matched = true`.  (b) When
`i + len(K) + 6 < len(T)`, it reports `matched = true` and the context is
the window `T[max(i-6,0) : i+len(K)+6]` with the newlines removed and the
leading and trailing spaces trimmed; the window contains the bytes
`T[i : i+len(K)]`.  (c) For an ASCII text and keyword those bytes lower-case
to the lower-cased keyword: they are the matched text. -/
theorem checkKeywordMatch_present (lowerRune : Nat → Nat) (doc : Document) (keyword : GoString)
    (hT : doc.Text ≠ [])
    (hocc : ToLower lowerRune keyword <:+: ToLower lowerRune doc.Text) :
    ∃ i : Nat, Index (ToLower lowerRune doc.Text) (ToLower lowerRune keyword) = (i : Int) ∧
      ((ToLower lowerRune doc.Text).length = doc.Text.length →
        ∃ context, checkKeywordMatch lowerRune doc keyword = some (true, context)) ∧
      (i + keyword.length + 6 < doc.Text.length →
        checkKeywordMatch lowerRune doc keyword =
          some (true, Trim (removeNewlines
            ((doc.Text.drop (i - 6)).take (min i 6 + keyword.length + 6)))) ∧
        ∃ pre post, (doc.Text.drop (i - 6)).take (min i 6 + keyword.length + 6) =
          pre ++ (doc.Text.drop i).take keyword.length ++ post) ∧
      ((∀ b ∈ doc.Text, b < 0x80) → (∀ b ∈ keyword, b < 0x80) →
        ToLower lowerRune ((doc.Text.drop i).take keyword.length) =
          ToLower lowerRune keyword) := by
  obtain ⟨i, hi, hIdx⟩ := Index_present _ _ hocc
  obtain ⟨hle, htake⟩ := indexOf?_some_take _ _ _ hi
  have hlen : doc.Text.length ≠ 0 := by
    intro h; exact hT (List.length_eq_zero.mp h)
  refine ⟨i, hIdx, ?_, ?_, ?_⟩
  · intro hsame
    rw [checkKeywordMatch_found lowerRune doc keyword i hlen hIdx]
    rw [hsame] at hle
    rw [slice_nat _ _ _ (by split_ifs <;> omega) (by split_ifs <;> omega)]
    exact ⟨_, rfl⟩
  · intro hend
    refine ⟨?_, _, _, window_split doc.Text i keyword.length⟩
    rw [checkKeywordMatch_found lowerRune doc keyword i hlen hIdx]
    have hn : ¬ (i + keyword.length + 6 ≥ doc.Text.length) := by omega
    simp only [hn, if_false]
    rw [slice_nat _ _ _ (by omega) (by omega)]
    have : i + keyword.length + 6 - (i - 6) = min i 6 + keyword.length + 6 := by omega
    simp [this]
  · intro hTa hKa
    have hsub : ∀ b ∈ (doc.Text.drop i).take keyword.length, b < 0x80 := fun b hb =>
      hTa b (List.mem_of_mem_drop (List.mem_of_mem_take hb))
    rw [ToLower_ascii _ _ hTa, ToLower_ascii _ _ hKa] at htake
    rw [ToLower_ascii _ _ hsub, ToLower_ascii _ _ hKa]
    simpa [List.map_take, List.map_drop] using htake

/-- Claim C1, amended, at the text `Say Hello World to everyone` and the
keyword `world`: the context is `Hello World to ev`. -/
theorem checkKeywordMatch_present_witness :
    utf8 "Say Hello World to everyone" ≠ [] ∧
      ToLower unicodeToLower (utf8 "world") <:+:
        ToLower unicodeToLower (utf8 "Say Hello World to everyone") ∧
      checkKeywordMatch unicodeToLower ⟨utf8 "Say Hello World to everyone", []⟩ (utf8 "world") =
        some (true, utf8 "Hello World to ev") := by
  refine ⟨by decide, by decide, ?_⟩
  obtain ⟨i, hi, -, hwin, -⟩ := checkKeywordMatch_present unicodeToLower
    ⟨utf8 "Say Hello World to everyone", []⟩ (utf8 "world") (by decide) (by decide)
  have h10 : i = 10 := by
    have : Index (ToLower unicodeToLower (utf8 "Say Hello World to everyone"))
        (ToLower unicodeToLower (utf8 "world")) = 10 := by decide
    rw [this] at hi
    exact_mod_cast hi.symm
  subst h10
  rw [(hwin (by decide)).1]
  decide

/-- Claim C1 fails as stated.  The keyword `world` occurs in `Hello World`,
and the context returned is `Hello Worl`, which does not contain the
matched text `World` (the end of the window is clamped to `len - 1`).  The
keyword ` key` occurs in ` key and more text`, and the context `key and m`
does not contain it (the leading space is trimmed).  The empty keyword
occurs in the empty text, and the result is `matched = false` (the early
return on empty content). -/
theorem context_misses_match :
    (ToLower unicodeToLower (utf8 "world") <:+: ToLower unicodeToLower (utf8 "Hello World") ∧
      checkKeywordMatch unicodeToLower ⟨utf8 "Hello World", []⟩ (utf8 "world") =
        some (true, utf8 "Hello Worl") ∧
      ¬ utf8 "World" <:+: utf8 "Hello Worl") ∧
    (ToLower unicodeToLower (utf8 " key") <:+:
        ToLower unicodeToLower (utf8 " key and more text") ∧
      checkKeywordMatch unicodeToLower ⟨utf8 " key and more text", []⟩ (utf8 " key") =
        some (true, utf8 "key and m") ∧
      ¬ utf8 " key" <:+: utf8 "key and m") ∧
    (ToLower unicodeToLower (utf8 "") <:+: ToLower unicodeToLower (utf8 "") ∧
      checkKeywordMatch unicodeToLower ⟨utf8 "", []⟩ (utf8 "") = some (false, utf8 "")) := by
  decide

/-- Claim C2.  For every page text and keyword such that the lower-cased
keyword does not occur in the lower-cased text, `checkKeywordMatch` returns
(it does not panic) and reports `matched = false`. -/
theorem checkKeywordMatch_absent (lowerRune : Nat → Nat) (doc : Document) (keyword : GoString)
    (h : ¬ ToLower lowerRune keyword <:+: ToLower lowerRune doc.Text) :
    ∃ context, checkKeywordMatch lowerRune doc keyword = some (false, context) :=
  checkKeywordMatch_not_found lowerRune doc keyword h

/-- Claim C2 at the text `hello world` and the keyword `xyz`. -/
theorem checkKeywordMatch_absent_witness :
    ¬ ToLower unicodeToLower (utf8 "xyz") <:+: ToLower unicodeToLower (utf8 "hello world") ∧
      ∃ context, checkKeywordMatch unicodeToLower ⟨utf8 "hello world", []⟩ (utf8 "xyz") =
        some (false, context) :=
  ⟨by decide,
    checkKeywordMatch_absent unicodeToLower ⟨utf8 "hello world", []⟩ (utf8 "xyz") (by decide)⟩

/-- Claim C3 on the code: for the text `hello world` and the keyword `xyz`,
which does not occur, `checkKeywordMatch` reports `matched = false` with
the context `hello wo`, not the empty string. -/
theorem no_match_context_not_empty :
    checkKeywordMatch unicodeToLower ⟨utf8 "hello world", []⟩ (utf8 "xyz") =
      some (false, utf8 "hello wo") := by
  decide

/-- Claim C10 on the code: the text `ȺȺȺȺȺȺȺx` has 15 bytes and its
lower-cased form 22 bytes (U+023A has two bytes, its lower case U+2C65
three).  The keyword `x` is found at index 21 of the lower-cased text, so
the context starts at 21 - 6 = 15 and ends at 15 - 1 = 14: the slice
expression is out of range and `checkKeywordMatch` panics. -/
theorem context_slice_out_of_range :
    (utf8 "ȺȺȺȺȺȺȺx").length = 15 ∧
      (ToLower unicodeToLower (utf8 "ȺȺȺȺȺȺȺx")).length = 22 ∧
      Index (ToLower unicodeToLower (utf8 "ȺȺȺȺȺȺȺx")) (ToLower unicodeToLower (utf8 "x")) = 21 ∧
      slice (utf8 "ȺȺȺȺȺȺȺx") (21 - 6) (15 - 1) = none ∧
      checkKeywordMatch unicodeToLower ⟨utf8 "ȺȺȺȺȺȺȺx", []⟩ (utf8 "x") = none := by
  decide

/-! ## Deduplication: claim C9 -/

/-- Claim C9.  Whatever the iteration order of the map, `dedupeList xs` has
no duplicates and has exactly the elements of `xs`; two inputs with the
same elements (in any order, with any number of duplicates) give the same
output up to order; and deduplicating a second time gives a permutation of
the first result, of the same length. -/
theorem dedupeList_distinct_idempotent (ρ ρ' : RangeOrder Bool) (xs : List GoString) :
    (dedupeList ρ xs).Nodup ∧ (∀ x, x ∈ dedupeList ρ xs ↔ x ∈ xs) ∧
      (∀ ys : List GoString, (∀ x, x ∈ ys ↔ x ∈ xs) →
        (dedupeList ρ' ys).Perm (dedupeList ρ xs)) ∧
      (dedupeList ρ' (dedupeList ρ xs)).Perm (dedupeList ρ xs) ∧
      (dedupeList ρ' (dedupeList ρ xs)).length = (dedupeList ρ xs).length := by
  have hperm : ∀ ys : List GoString, (∀ x, x ∈ ys ↔ x ∈ xs) →
      (dedupeList ρ' ys).Perm (dedupeList ρ xs) := by
    intro ys hys
    rw [List.perm_ext_iff_of_nodup (dedupeList_nodup ρ' ys) (dedupeList_nodup ρ xs)]
    intro x
    rw [mem_dedupeList, mem_dedupeList, hys]
  have hidem := hperm (dedupeList ρ xs) (mem_dedupeList ρ xs)
  exact ⟨dedupeList_nodup ρ xs, mem_dedupeList ρ xs, hperm, hidem, hidem.length_eq⟩

/-- Claim C9 on the list `q, r, q` and its rearrangement `r, q, q, r`,
iterated in insertion order. -/
theorem dedupeList_witness :
    dedupeList (insertionOrder Bool) [qURL, rURL, qURL] = [qURL, rURL] ∧
      (dedupeList (insertionOrder Bool) [rURL, qURL, qURL, rURL]).Perm
        (dedupeList (insertionOrder Bool) [qURL, rURL, qURL]) :=
  ⟨by decide,
    (dedupeList_distinct_idempotent (insertionOrder Bool) (insertionOrder Bool)
      [qURL, rURL, qURL]).2.2.1 [rURL, qURL, qURL, rURL]
      (fun x => by simp only [List.mem_cons, List.mem_singleton]; tauto)⟩

/-! ## The crawl: claims C4 to C8 -/

section Crawl

variable {World Body URL Error : Type}

/-- Claim C4, as amended.  The frontier at the start of level 0 is the
start URL alone.  The frontier `f` at the start of level `n + 1` is the
concatenation of one block per page of the frontier `f0` of level `n`, in
order.  The block of a page `src` is what the crawl of `src` appends to
`newURLs`: with `r1` the visited map after the pages before `src` and
`foundURLs` the links `crawlPage` finds on `src` in the world reached,
`newURLs` is the concatenation of the earlier blocks before `src` is
crawled and the same followed by the block of `src` after, and the block is
the result of the queueing loop on `foundURLs` against the visited map
`r1` with `src` recorded.  No block contains a URL twice, and a URL occurs
in the frontier once per page whose block contains it.  (The frontier as a
whole is not deduplicated.) -/
theorem frontier_blocks (env : Env World Body URL Error)
    (keyword startURL : GoString) (w : World) (n : Nat) (r : GoMap PageResult)
    (f : List GoString) (w' : World)
    (h : crawlLoop env keyword (n + 1) GoMap.empty [startURL] w = (.ok (r, f), w')) :
    crawlLoop env keyword 0 GoMap.empty [startURL] w = (.ok (GoMap.empty, [startURL]), w) ∧
    ∃ r0 f0 w0, crawlLoop env keyword n GoMap.empty [startURL] w = (.ok (r0, f0), w0) ∧
      ∃ blocks : List (List GoString), f = blocks.flatten ∧ blocks.length = f0.length ∧
        (∀ b ∈ blocks, b.Nodup) ∧
        (∀ u, (f.filter (fun x => decide (x = u))).length =
          (blocks.filter (fun b => decide (u ∈ b))).length) ∧
        ∀ pre src post, f0 = pre ++ src :: post →
          ∃ b r1 w1 foundURLs m c w2,
            blocks[pre.length]? = some b ∧
            crawlLevel env keyword pre r0 [] w0 =
              (.ok (r1, (blocks.take pre.length).flatten), w1) ∧
            crawlPage env w1 src keyword = (.ok (foundURLs, m, c), w2) ∧
            crawlLevel env keyword (pre ++ [src]) r0 [] w0 =
              (.ok (r1.set src ⟨src, m, c⟩, (blocks.take pre.length).flatten ++ b), w2) ∧
            b = queueFoundURLs env (r1.set src ⟨src, m, c⟩) src foundURLs [] := by
  refine ⟨rfl, ?_⟩
  obtain ⟨r0, f0, w0, h0, hl⟩ := crawlLoop_succ_inv env keyword n _ _ _ _ _ h
  obtain ⟨bs, hq, hlen, hnd, hsplit⟩ := crawlLevel_trace env keyword f0 r0 r [] f w0 w' hl
  have hf : f = bs.flatten := by simpa using hq
  refine ⟨r0, f0, w0, h0, bs, hf, hlen, hnd, fun u => ?_, fun pre src post hs => ?_⟩
  · rw [hf]
    exact flatten_filter_length bs u hnd
  · obtain ⟨r1, w1, fu, m, c, w2, h1, h2, h3⟩ := hsplit pre src post hs
    rw [List.nil_append] at h1
    exact ⟨_, r1, w1, fu, m, c, w2, h3, h1, h2,
      crawlLevel_page env keyword pre src r0 r1 [] _ w0 w1 w2 fu m c h1 h2, rfl⟩

/-- Claim C4, amended, on the small web: the frontier `/r, /q, /r` after
two levels is the block `/r, /q` of `/p` followed by the block `/r` of
`/q`, and `/r` occurs once per block. -/
theorem frontier_blocks_witness :
    crawlLoop (demoEnv []) (utf8 "key") 2 GoMap.empty [homeURL] [] =
        (.ok (demoResults2, [rURL, qURL, rURL]), [homeURL, pURL, qURL]) ∧
      ∃ blocks : List (List GoString), [rURL, qURL, rURL] = blocks.flatten ∧
        blocks.length = 2 ∧ (∀ b ∈ blocks, b.Nodup) ∧
        blocks[0]? = some [rURL, qURL] ∧ blocks[1]? = some [rURL] ∧
        ([rURL, qURL, rURL].filter (fun x => decide (x = rURL))).length =
          (blocks.filter (fun b => decide (rURL ∈ b))).length := by
  refine ⟨by decide, ?_⟩
  obtain ⟨-, r0, f0, w0, h0, blocks, hf, hlen, hnd, hcount, hsplit⟩ :=
    frontier_blocks (demoEnv []) (utf8 "key") homeURL [] 1 demoResults2
      [rURL, qURL, rURL] [homeURL, pURL, qURL] (by decide)
  have h1 : crawlLoop (demoEnv []) (utf8 "key") 1 GoMap.empty [homeURL] [] =
      (.ok (demoResults1, [pURL, qURL]), [homeURL]) := by decide
  rw [h1] at h0
  simp only [Prod.mk.injEq, Outcome.ok.injEq] at h0
  obtain ⟨⟨rfl, rfl⟩, rfl⟩ := h0
  refine ⟨blocks, hf, hlen, hnd, ?_, ?_, hcount rURL⟩
  · obtain ⟨b, r1, w1, fu, m, c, w2, hb, hpre, hp, -, hbe⟩ := hsplit [] pURL [qURL] rfl
    have e1 : crawlLevel (demoEnv []) (utf8 "key") [] demoResults1 [] [homeURL] =
        (.ok (demoResults1, []), [homeURL]) := rfl
    rw [e1] at hpre
    simp only [Prod.mk.injEq, Outcome.ok.injEq] at hpre
    obtain ⟨⟨rfl, -⟩, rfl⟩ := hpre
    have e2 : crawlPage (demoEnv []) [homeURL] pURL (utf8 "key") =
        (.ok ([rURL, qURL], false, utf8 "page"), [homeURL, pURL]) := by decide
    rw [e2] at hp
    simp only [Prod.mk.injEq, Outcome.ok.injEq] at hp
    obtain ⟨⟨rfl, rfl, rfl⟩, rfl⟩ := hp
    rw [hbe] at hb
    rw [show ([] : List GoString).length = 0 from rfl] at hb
    rw [hb]
    decide
  · obtain ⟨b, r1, w1, fu, m, c, w2, hb, hpre, hp, -, hbe⟩ := hsplit [pURL] qURL [] rfl
    have e1 : crawlLevel (demoEnv []) (utf8 "key") [pURL] demoResults1 [] [homeURL] =
        (.ok (demoResultsP, [rURL, qURL]), [homeURL, pURL]) := by decide
    rw [e1] at hpre
    simp only [Prod.mk.injEq, Outcome.ok.injEq] at hpre
    obtain ⟨⟨rfl, -⟩, rfl⟩ := hpre
    have e2 : crawlPage (demoEnv []) [homeURL, pURL] qURL (utf8 "key") =
        (.ok ([rURL], false, utf8 "page"), [homeURL, pURL, qURL]) := by decide
    rw [e2] at hp
    simp only [Prod.mk.injEq, Outcome.ok.injEq] at hp
    obtain ⟨⟨rfl, rfl, rfl⟩, rfl⟩ := hp
    rw [hbe] at hb
    rw [show ([pURL] : List GoString).length = 1 from rfl] at hb
    rw [hb]
    decide

/-- Claim C4 fails as stated.  On the small web the pages `/p` and `/q` of
level 1 both link to the unvisited `/r`: the frontier at the start of
level 2 is `/r, /q, /r`, in which `/r` occurs twice. -/
theorem frontier_has_duplicate :
    crawlLoop (demoEnv []) (utf8 "key") 2 GoMap.empty [homeURL] [] =
        (.ok (demoResults2, [rURL, qURL, rURL]), [homeURL, pURL, qURL]) ∧
      ¬ [rURL, qURL, rURL].Nodup := by
  decide

/-- Claim C5, as amended.  After any number of levels the visited map has
at most one entry per URL (its keys are pairwise distinct) and the
`PageResult` of an entry carries the URL of its key.  Through the next
level every key stays a key, and a URL that is a key of the visited map at
the start of a level is not queued during that level.  (A URL queued twice,
or queued before its own visit in the same level, is fetched again and its
entry replaced.) -/
theorem visited_keys_distinct (env : Env World Body URL Error)
    (keyword startURL : GoString) (w : World) (n : Nat) (r : GoMap PageResult)
    (f : List GoString) (w' : World)
    (h : crawlLoop env keyword n GoMap.empty [startURL] w = (.ok (r, f), w')) :
    r.keys.Nodup ∧ (∀ e ∈ r.entries, e.2.URL = e.1) ∧
      ∀ r1 f1 w1, crawlLoop env keyword (n + 1) GoMap.empty [startURL] w = (.ok (r1, f1), w1) →
        ∀ u ∈ r.keys, u ∈ r1.keys ∧ u ∉ f1 := by
  obtain ⟨hn, hu⟩ := crawlLoop_results env keyword startURL w n r f w' h
  refine ⟨hn, hu, fun r1 f1 w1 h1 u hk => ?_⟩
  obtain ⟨r0, f0, w0, h0, hl⟩ := crawlLoop_succ_inv env keyword n _ _ _ _ _ h1
  rw [h] at h0
  simp only [Prod.mk.injEq, Outcome.ok.injEq] at h0
  obtain ⟨⟨rfl, rfl⟩, rfl⟩ := h0
  obtain ⟨-, -, hkeys⟩ := crawlLevel_results env keyword f r r1 [] f1 w' w1 hl hn hu
  obtain ⟨q, hq, hmem⟩ := crawlLevel_queued env keyword f r r1 [] f1 w' w1 hl
  refine ⟨(hkeys u).mpr (Or.inl hk), fun hin => ?_⟩
  rw [hq] at hin
  obtain ⟨pre, src, post, -, hnot, -⟩ := hmem u (by simpa using hin)
  exact hnot hk

/-- Claim C5, amended, on the small web after two levels. -/
theorem visited_keys_distinct_witness :
    crawlLoop (demoEnv []) (utf8 "key") 2 GoMap.empty [homeURL] [] =
        (.ok (demoResults2, [rURL, qURL, rURL]), [homeURL, pURL, qURL]) ∧
      demoResults2.keys.Nodup :=
  ⟨by decide, (visited_keys_distinct (demoEnv []) (utf8 "key") homeURL [] 2 demoResults2
    [rURL, qURL, rURL] [homeURL, pURL, qURL] (by decide)).1⟩

/-- Claim C5 fails as stated.  A crawl of the small web with depth 3
requests `/q` twice and `/r` twice (the world is the list of requests).
The first request of `/r` yields a keyword match, the second does not; the
run returns four visited pages and no match: the entry of `/r` was
overwritten. -/
theorem page_fetched_twice :
    PerformKeywordCrawl (demoEnv []) (insertionOrder PageResult) [] homeURL (utf8 "key") 3 =
        (some (4, [], none), [homeURL, pURL, qURL, rURL, qURL, rURL]) ∧
      (crawlPage (demoEnv []) [homeURL, pURL, qURL] rURL (utf8 "key")).1 =
        .ok ([], true, utf8 "the key is he") ∧
      (crawlPage (demoEnv []) [homeURL, pURL, qURL, rURL, qURL] rURL (utf8 "key")).1 =
        .ok ([], false, utf8 "gon") := by
  decide

/-- Claim C6.  During a level every append to `newURLs` is made by the
crawl of one page `src` of the frontier: with `r1` the visited map after
the pages before `src` and `foundURLs` the links `crawlPage` finds on `src`
in the world reached, the crawl of `src` turns `newURLs` into `newURLs`
followed by a block `b`, and these blocks make up the next frontier.  The
block takes each found URL at most once (`foundURLs` has no duplicates and
`b` is a sublist of it), and a found URL is in the block exactly when it is
not a key of the visited map at that moment (`r1` with `src` recorded),
both it and `src` parse, and the two hostnames are equal.  So no URL is
appended that is visited, that fails to parse or whose hostname differs
from that of the page it was found on.  The second part says the same of
the loop over the found URLs from any state, the third of the crawl of one
page after any pages, whether or not the level is completed. -/
theorem queued_same_host_unvisited (env : Env World Body URL Error)
    (keyword startURL : GoString) (w : World) (n : Nat) (r : GoMap PageResult)
    (f : List GoString) (w' : World)
    (h : crawlLoop env keyword (n + 1) GoMap.empty [startURL] w = (.ok (r, f), w')) :
    (∃ r0 f0 w0, crawlLoop env keyword n GoMap.empty [startURL] w = (.ok (r0, f0), w0) ∧
      ∃ blocks : List (List GoString), f = blocks.flatten ∧ blocks.length = f0.length ∧
        ∀ pre src post, f0 = pre ++ src :: post →
          ∃ b r1 w1 foundURLs m c w2,
            blocks[pre.length]? = some b ∧
            crawlLevel env keyword pre r0 [] w0 =
              (.ok (r1, (blocks.take pre.length).flatten), w1) ∧
            crawlPage env w1 src keyword = (.ok (foundURLs, m, c), w2) ∧
            crawlLevel env keyword (pre ++ [src]) r0 [] w0 =
              (.ok (r1.set src ⟨src, m, c⟩, (blocks.take pre.length).flatten ++ b), w2) ∧
            b.Sublist foundURLs ∧ foundURLs.Nodup ∧
            (∀ u ∈ r0.keys, u ∈ (r1.set src ⟨src, m, c⟩).keys) ∧
            (∀ u ∈ pre, u ∈ (r1.set src ⟨src, m, c⟩).keys) ∧
            src ∈ (r1.set src ⟨src, m, c⟩).keys ∧
            ∀ u, u ∈ b ↔ (u ∈ foundURLs ∧ u ∉ (r1.set src ⟨src, m, c⟩).keys ∧
              ∃ cur found, env.Parse src = .ok cur ∧ env.Parse u = .ok found ∧
                env.Hostname found = env.Hostname cur)) ∧
    (∀ (results : GoMap PageResult) (crawlURL u : GoString) (foundURLs newURLs : List GoString),
      (results.has u = true ∨ ∀ cur found, env.Parse crawlURL = .ok cur →
          env.Parse u = .ok found → env.Hostname found ≠ env.Hostname cur) →
        u ∉ newURLs → u ∉ queueFoundURLs env results crawlURL foundURLs newURLs) ∧
    (∀ (pre : List GoString) (src : GoString) (r0 r1 : GoMap PageResult)
        (q0 q1 foundURLs : List GoString) (m : Bool) (c : GoString) (w0 w1 w2 : World),
      crawlLevel env keyword pre r0 q0 w0 = (.ok (r1, q1), w1) →
      crawlPage env w1 src keyword = (.ok (foundURLs, m, c), w2) →
      ∃ b, crawlLevel env keyword (pre ++ [src]) r0 q0 w0 =
          (.ok (r1.set src ⟨src, m, c⟩, q1 ++ b), w2) ∧
        b.Sublist foundURLs ∧ foundURLs.Nodup ∧
        ∀ u, u ∈ b ↔ (u ∈ foundURLs ∧ u ∉ (r1.set src ⟨src, m, c⟩).keys ∧
          ∃ cur found, env.Parse src = .ok cur ∧ env.Parse u = .ok found ∧
            env.Hostname found = env.Hostname cur)) := by
  refine ⟨?_, ?_, ?_⟩
  · obtain ⟨r0, f0, w0, h0, hl⟩ := crawlLoop_succ_inv env keyword n _ _ _ _ _ h
    obtain ⟨hn0, hu0⟩ := crawlLoop_results env keyword startURL w n r0 f0 w0 h0
    obtain ⟨bs, hq, hlen, -, hsplit⟩ := crawlLevel_trace env keyword f0 r0 r [] f w0 w' hl
    refine ⟨r0, f0, w0, h0, bs, by simpa using hq, hlen, fun pre src post hs => ?_⟩
    obtain ⟨r1, w1, fu, m, c, w2, h1, h2, h3⟩ := hsplit pre src post hs
    rw [List.nil_append] at h1
    obtain ⟨hsub, hmem⟩ := queueFoundURLs_block env (r1.set src ⟨src, m, c⟩) src fu
    obtain ⟨-, -, hkeys⟩ := crawlLevel_results env keyword pre r0 r1 [] _ w0 w1 h1 hn0 hu0
    refine ⟨_, r1, w1, fu, m, c, w2, h3, h1, h2,
      crawlLevel_page env keyword pre src r0 r1 [] _ w0 w1 w2 fu m c h1 h2, hsub,
      crawlPage_nodup env w1 w2 src keyword fu m c h2, ?_, ?_, ?_, hmem⟩
    · intro u hu
      exact (GoMap.mem_keys_set _ _ _ _).mpr (Or.inl ((hkeys u).mpr (Or.inl hu)))
    · intro u hu
      exact (GoMap.mem_keys_set _ _ _ _).mpr (Or.inl ((hkeys u).mpr (Or.inr hu)))
    · exact (GoMap.mem_keys_set _ _ _ _).mpr (Or.inr rfl)
  · intro results crawlURL u foundURLs newURLs hbad hnew hin
    obtain ⟨q, hq, -, hmem⟩ := queueFoundURLs_spec env results crawlURL foundURLs newURLs
    rw [hq] at hin
    rcases List.mem_append.mp hin with h1 | h1
    · exact hnew h1
    · obtain ⟨-, hnot, cur, found, hc, hf, hh⟩ := (hmem u).mp h1
      rcases hbad with hb | hb
      · rw [hb] at hnot
        exact Bool.noConfusion hnot
      · exact hb cur found hc hf hh
  · intro pre src r0 r1 q0 q1 fu m c w0 w1 w2 h1 h2
    obtain ⟨hsub, hmem⟩ := queueFoundURLs_block env (r1.set src ⟨src, m, c⟩) src fu
    exact ⟨_, crawlLevel_page env keyword pre src r0 r1 q0 q1 w0 w1 w2 fu m c h1 h2, hsub,
      crawlPage_nodup env w1 w2 src keyword fu m c h2, hmem⟩

/-- Claim C6 on the small web: during level 1 the crawl of `/q`, after
`/p`, appends the block `/r` to `newURLs`; the link is not a key of the
visited map, which holds the home page, `/p` and `/q`. -/
theorem queued_same_host_unvisited_witness :
    crawlLoop (demoEnv []) (utf8 "key") 2 GoMap.empty [homeURL] [] =
        (.ok (demoResults2, [rURL, qURL, rURL]), [homeURL, pURL, qURL]) ∧
      ∃ blocks : List (List GoString), [rURL, qURL, rURL] = blocks.flatten ∧
        blocks.length = 2 ∧
        ∃ b r1 foundURLs, blocks[1]? = some b ∧
          crawlLevel (demoEnv []) (utf8 "key") [pURL] demoResults1 [] [homeURL] =
            (.ok (r1, (blocks.take 1).flatten), [homeURL, pURL]) ∧
          (crawlPage (demoEnv []) [homeURL, pURL] qURL (utf8 "key")).1 =
            .ok (foundURLs, false, utf8 "page") ∧
          b.Sublist foundURLs ∧
          ∀ u, u ∈ b ↔ (u ∈ foundURLs ∧
            u ∉ (r1.set qURL ⟨qURL, false, utf8 "page"⟩).keys ∧
            ∃ cur found, (demoEnv []).Parse qURL = .ok cur ∧
              (demoEnv []).Parse u = .ok found ∧
              (demoEnv []).Hostname found = (demoEnv []).Hostname cur) := by
  refine ⟨by decide, ?_⟩
  obtain ⟨⟨r0, f0, w0, h0, blocks, hf, hlen, hsplit⟩, -, -⟩ :=
    queued_same_host_unvisited (demoEnv []) (utf8 "key") homeURL [] 1 demoResults2
      [rURL, qURL, rURL] [homeURL, pURL, qURL] (by decide)
  have h1 : crawlLoop (demoEnv []) (utf8 "key") 1 GoMap.empty [homeURL] [] =
      (.ok (demoResults1, [pURL, qURL]), [homeURL]) := by decide
  rw [h1] at h0
  simp only [Prod.mk.injEq, Outcome.ok.injEq] at h0
  obtain ⟨⟨rfl, rfl⟩, rfl⟩ := h0
  obtain ⟨b, r1, w1, fu, m, c, w2, hb, hpre, hp, -, hsub, -, -, -, -, hmem⟩ :=
    hsplit [pURL] qURL [] rfl
  have e1 : crawlLevel (demoEnv []) (utf8 "key") [pURL] demoResults1 [] [homeURL] =
      (.ok (demoResultsP, [rURL, qURL]), [homeURL, pURL]) := by decide
  have hw : w1 = [homeURL, pURL] := by
    rw [e1] at hpre
    simp only [Prod.mk.injEq, Outcome.ok.injEq] at hpre
    exact hpre.2.symm
  subst hw
  have e2 : crawlPage (demoEnv []) [homeURL, pURL] qURL (utf8 "key") =
      (.ok ([rURL], false, utf8 "page"), [homeURL, pURL, qURL]) := by decide
  rw [e2] at hp
  simp only [Prod.mk.injEq, Outcome.ok.injEq] at hp
  obtain ⟨⟨rfl, rfl, rfl⟩, rfl⟩ := hp
  exact ⟨blocks, hf, hlen, b, r1, [rURL], hb, hpre, by rw [e2], hsub, hmem⟩

/-- Claim C8 on the code: a crawl of depth 1 from the page `/s` of the
small web with the keyword `x`.  The request succeeds with status 200 and
the text `ȺȺȺȺȺȺȺx`; the one call of `crawlPage` does not return an error,
it panics in `checkKeywordMatch`; `PerformKeywordCrawl` neither returns an
error with a total of 0 nor a nil error with a total of 1: it panics. -/
theorem crawl_panics_without_error :
    (demoEnv []).Get [] sURL = (.ok (200, ⟨utf8 "ȺȺȺȺȺȺȺx", []⟩), [sURL]) ∧
      crawlPage (demoEnv []) [] sURL (utf8 "x") = (.panic, [sURL]) ∧
      PerformKeywordCrawl (demoEnv []) (insertionOrder PageResult) [] sURL (utf8 "x") 1 =
        (none, [sURL]) :=
  ⟨rfl, by decide, by decide⟩

/-- What `PerformKeywordCrawl` returns on the runs in which no call
panics.  (1) If, at some level of a run, the pages before `u` in the
frontier are crawled without failure and `crawlPage` returns an error for
`u`, then `PerformKeywordCrawl` returns that error with a total of 0 and
no match, and stops there: the world is the one left by the failed call.
(2) If the loop ends without error, `PerformKeywordCrawl` returns a nil
error, a total equal to the number of keys of the visited map, which are
pairwise distinct and are exactly the URLs of the frontiers of the levels
run, and as matches the visited `PageResult`s whose `IsKeywordMatch` is
true, in some order.  (3) If no call of `crawlPage` can fail, the loop ends
without error. -/
theorem PerformKeywordCrawl_result (env : Env World Body URL Error) (ρ : RangeOrder PageResult)
    (w : World) (startURL keyword : GoString) (depth : Int) :
    (∀ (n m : Nat) (pre : List GoString) (u : GoString) (post : List GoString)
        (r0 r1 : GoMap PageResult) (q1 : List GoString) (w0 w1 w2 : World) (e : Error),
      depth = ((n + 1 + m : Nat) : Int) →
      crawlLoop env keyword n GoMap.empty [startURL] w = (.ok (r0, pre ++ u :: post), w0) →
      crawlLevel env keyword pre r0 [] w0 = (.ok (r1, q1), w1) →
      crawlPage env w1 u keyword = (.err e, w2) →
      PerformKeywordCrawl env ρ w startURL keyword depth = (some (0, [], some e), w2)) ∧
    (∀ (r : GoMap PageResult) (f : List GoString) (w' : World),
      crawlLoop env keyword depth.toNat GoMap.empty [startURL] w = (.ok (r, f), w') →
      ∃ matchList, PerformKeywordCrawl env ρ w startURL keyword depth =
          (some (r.keys.length, matchList, none), w') ∧
        r.keys.Nodup ∧
        (∀ u, u ∈ r.keys ↔ ∃ i, i < depth.toNat ∧ ∃ ri fi wi,
          crawlLoop env keyword i GoMap.empty [startURL] w = (.ok (ri, fi), wi) ∧ u ∈ fi) ∧
        matchList.Perm ((r.entries.map Prod.snd).filter (fun p => p.IsKeywordMatch))) ∧
    ((∀ w0 u, ∃ out w1, crawlPage env w0 u keyword = (.ok out, w1)) →
      ∃ r f w', crawlLoop env keyword depth.toNat GoMap.empty [startURL] w =
        (.ok (r, f), w')) := by
  refine ⟨?_, ?_, ?_⟩
  · intro n m pre u post r0 r1 q1 w0 w1 w2 e hd h0 hpre hu
    have hlevel : crawlLevel env keyword (pre ++ u :: post) r0 [] w0 = (.err e, w2) := by
      rw [crawlLevel_append env keyword pre (u :: post) r0 r1 [] q1 w0 w1 hpre]
      exact crawlLevel_cons_err env keyword u post r1 q1 w1 w2 e hu
    have hloop : crawlLoop env keyword (n + 1 + m) GoMap.empty [startURL] w = (.err e, w2) := by
      apply crawlLoop_add_err
      rw [crawlLoop_add_ok env keyword n 1 _ _ _ _ _ _ h0, crawlLoop_one]
      exact hlevel
    have ht : depth.toNat = n + 1 + m := by omega
    simp [PerformKeywordCrawl, ht, hloop]
  · intro r f w' h
    obtain ⟨hn, -⟩ := crawlLoop_results env keyword startURL w _ r f w' h
    refine ⟨((ρ.order r).map Prod.snd).filter (fun p => p.IsKeywordMatch), ?_, hn,
      crawlLoop_keys env keyword startURL w _ r f w' h, ?_⟩
    · simp only [PerformKeywordCrawl, h, foldl_matches, List.nil_append]
      simp [GoMap.len, GoMap.keys]
    · exact ((ρ.perm r).map Prod.snd).filter _
  · intro hok
    obtain ⟨⟨r, f⟩, w', h⟩ :=
      crawlLoop_never_fails env keyword hok depth.toNat GoMap.empty [startURL] w
    exact ⟨r, f, w', h⟩

/-- The small web with the page `/q` down: a run of depth 3
crawls the home page and `/p`, fails on `/q` and returns the error with a
total of 0 and no match; `/r` is never requested. -/
theorem PerformKeywordCrawl_result_witness :
    PerformKeywordCrawl (demoEnv [qURL]) (insertionOrder PageResult) [] homeURL (utf8 "key") 3 =
      (some (0, [], some ()), [homeURL, pURL, qURL]) :=
  (PerformKeywordCrawl_result (demoEnv [qURL]) (insertionOrder PageResult) [] homeURL
    (utf8 "key") 3).1 1 1 [pURL] qURL [] demoResults1 demoResultsP [rURL, qURL]
    [homeURL] [homeURL, pURL] [homeURL, pURL, qURL] () (by decide) (by decide) (by decide)
    (by decide)

end Crawl

end Crawler
